import Mathlib

/-
  Verification of the json-parser repository (single header src/include/JSONParser.h)
  against its specification.

  Shallow embedding conventions:
  * `std::string` is modelled as `List Char` (the inputs of interest are byte
    strings; ASCII characters coincide with bytes).
  * `long double` / `double` payloads are modelled as exact rationals `ℚ`;
    binary floating-point rounding is abstracted away, and every concrete
    number appearing in a theorem below is exactly representable, so the
    model and the C++ agree on those instances.
  * `std::unordered_map` is modelled as an insertion-ordered association
    list (the map's unspecified enumeration order is fixed to insertion
    order; `operator[]`-style insert-or-overwrite is `objInsert` below).
  * The out-of-range cast `static_cast<long>(num)` in the number renderer is
    modelled as mathematical truncation; theorems about number rendering
    carry a `|q| < 2^63` style bound where the C++ cast would otherwise be
    undefined behaviour.
  * The parser's recursive-descent functions are modelled with an explicit
    `fuel` argument (structural recursion); every theorem either fixes a
    sufficient concrete fuel or quantifies over all sufficiently large fuel.
    The auxiliary scanning loops take a gas argument that is always
    initialised with `content.length - currIdx`, an upper bound on the
    number of iterations each C++ loop can execute (each iteration requires
    `!isEOF()` and advances the cursor), so the gas never runs out and the
    model agrees with the loop exactly.
-/

unseal Rat.add Rat.sub Rat.mul Rat.inv

set_option maxRecDepth 16000

namespace JSON

/-- Model of the C++ `JSON::Value` tagged tree node (JSONParser.h lines 21-175):
a `ValueType` tag together with the payload that the tag makes meaningful.
The Boolean payload (a 0/1 `long double` `num` in the source, produced only by
`makeBoolean(bool)`) is modelled as a native `Bool`. -/
inductive Value where
  | vObject : List (List Char × Value) → Value
  | vArray : List Value → Value
  | vString : List Char → Value
  | vNumber : ℚ → Value
  | vBoolean : Bool → Value
  | vNull : Value
  | vUnknown : Value

/-- `Value::toArray()` (line 67): returns the `arr` member, which is the
element vector for an Array and the default-constructed empty vector for
every other variant. -/
def Value.toArray : Value → List Value
  | .vArray es => es
  | _ => []

/-- `Value::operator[](int idx)` (lines 91-93): `return arr[idx];`, an
unchecked `std::vector::operator[]` access on the `arr` member. In bounds it
yields element `idx`; out of bounds the C++ has undefined behaviour (there is
no bounds check and no exception), modelled here as `none`. -/
def Value.atIndex (v : Value) (idx : Nat) : Option Value :=
  (v.toArray).get? idx

/-- Decimal digits of a natural number, most significant first, accumulator
style; the fuel argument (always called with `n + 1 > n`) makes the
recursion structural so that it evaluates by kernel reduction. -/
def natToStringAux : Nat → Nat → List Char → List Char
  | 0, _, acc => acc
  | f + 1, n, acc =>
      let d := Char.ofNat (48 + n % 10)
      if n < 10 then d :: acc else natToStringAux f (n / 10) (d :: acc)

/-- Decimal representation of a natural number, as produced by
`std::to_string` on a non-negative integer. -/
def natToString (n : Nat) : List Char := natToStringAux (n + 1) n []

/-- `std::to_string(long)`: sign followed by decimal digits. -/
def intToString (i : Int) : List Char :=
  if i < 0 then '-' :: natToString i.natAbs else natToString i.natAbs

/-- `static_cast<long>(num)`: truncation toward zero (modelled without the
64-bit overflow, which is undefined behaviour in the C++; theorems that rely
on this cast carry an explicit magnitude bound). -/
def ratTrunc (q : ℚ) : Int := q.num.tdiv q.den

/-- A natural number below 10^6 printed with exactly six digits (the
fractional part of printf `%Lf` output). -/
def pad6 (n : Nat) : List Char :=
  let s := natToString n
  List.replicate (6 - s.length) '0' ++ s

/-- `std::to_string` on a `long double`, i.e. `sprintf("%Lf")`: fixed-point
notation with six fractional digits. Rounding of the exact value to six
decimals is modelled as round-half-up on the magnitude; every value a
theorem instantiates this with is exact at six decimals or rounds away from
any tie, so the model agrees with the platform there. -/
def fixed6 (q : ℚ) : List Char :=
  let m : Nat := (⌊|q| * 1000000 + 1 / 2⌋).toNat
  (if q < 0 then ['-'] else []) ++
    natToString (m / 1000000) ++ '.' :: pad6 (m % 1000000)

mutual
/-- Model of `Value::getRepresentation(int indent, int depth)`
(JSONParser.h lines 101-160). The `default:` case of the `switch` (reached
for `ValueType_Unknown`) returns the empty string. Number case: if
`num - static_cast<long>(num) == 0` the value prints as
`std::to_string(lnum)`, otherwise as `std::to_string(num)` (`%Lf`). -/
def Value.getRepresentation : Value → Nat → Nat → List Char
  | .vNull, _, _ => "null".data
  | .vBoolean b, _, _ => if b then "true".data else "false".data
  | .vString s, _, _ => '"' :: s ++ ['"']
  | .vNumber q, _, _ =>
      if q - (ratTrunc q : ℚ) = 0 then intToString (ratTrunc q) else fixed6 q
  | .vUnknown, _, _ => []
  | .vArray arr, indent, depth =>
      '[' :: (renderArrayItems arr indent depth ++
        (if 0 < indent then ['\n'] else []) ++
        List.replicate (indent * depth) ' ' ++ [']'])
  | .vObject fields, indent, depth =>
      '\x7b' :: (renderObjectItems fields indent depth ++
        (if 0 < indent then ['\n'] else []) ++
        List.replicate (indent * depth) ' ' ++ ['\x7d'])

/-- The `for` loop of the Array case of `getRepresentation`: every element is
preceded by a newline and `indent * (depth + 1)` spaces when `indent > 0`,
and followed by a comma unless it is the last element. -/
def renderArrayItems : List Value → Nat → Nat → List Char
  | [], _, _ => []
  | [e], indent, depth =>
      (if 0 < indent then '\n' :: List.replicate (indent * (depth + 1)) ' ' else []) ++
        e.getRepresentation indent (depth + 1)
  | e :: e2 :: rest, indent, depth =>
      (if 0 < indent then '\n' :: List.replicate (indent * (depth + 1)) ' ' else []) ++
        e.getRepresentation indent (depth + 1) ++ [','] ++
        renderArrayItems (e2 :: rest) indent depth

/-- The iterator loop of the Object case of `getRepresentation`: each pair
prints as `"key":` (plus one space after the colon when `indent > 0`)
followed by the value, with the same newline/indent/comma layout as the
Array case. -/
def renderObjectItems : List (List Char × Value) → Nat → Nat → List Char
  | [], _, _ => []
  | [kv], indent, depth =>
      (if 0 < indent then '\n' :: List.replicate (indent * (depth + 1)) ' ' else []) ++
        '"' :: kv.1 ++ "\":".data ++ (if 0 < indent then [' '] else []) ++
        kv.2.getRepresentation indent (depth + 1)
  | kv :: kv2 :: rest, indent, depth =>
      (if 0 < indent then '\n' :: List.replicate (indent * (depth + 1)) ' ' else []) ++
        '"' :: kv.1 ++ "\":".data ++ (if 0 < indent then [' '] else []) ++
        kv.2.getRepresentation indent (depth + 1) ++ [','] ++
        renderObjectItems (kv2 :: rest) indent depth
end

/-- Model of the C++ `JSON::Parser` lexical state (JSONParser.h lines
177-439) together with its observable output: `content`, `currIdx`,
`currChar`, `currLine`, `isOk` are the data members (after construction
`currIdx ≥ 0`, so it is a `Nat`); `log` records the lines the parser prints
to stdout (error reports and the overflow warning), oldest first; `thrown`
records that the C++ code is propagating an uncaught exception
(`std::invalid_argument` escaping `parseNumber`'s `try` block, which
catches only `std::out_of_range`). Once `thrown` is set the C++ program
has abandoned the parse by stack unwinding, so theorems about a `thrown`
run only ever inspect that flag. -/
structure Parser where
  content : List Char
  currIdx : Nat
  currChar : Char
  currLine : Nat
  isOk : Bool
  log : List (List Char)
  thrown : Bool

/-- The `Parser(std::string)` constructor: members start as
`currIdx = -1`, `currChar = '\0'`, `currLine = 1`, `isOk = true`, and the
constructor body calls `advance()` once, which moves `currIdx` to `0` and
loads `content[0]` when the buffer is nonempty (otherwise `currChar`
keeps `'\0'`). -/
def Parser.init (content : List Char) : Parser :=
  { content := content
    currIdx := 0
    currChar := if 0 < content.length then content.getD 0 '\x00' else '\x00'
    currLine := 1
    isOk := true
    log := []
    thrown := false }

/-- `Parser::advance()`: increments `currIdx` and reloads `currChar` only
while the new index is in range; past the end `currChar` keeps its last
value (the stale-character latch that several theorems below turn on). -/
def Parser.advance (s : Parser) : Parser :=
  { s with
    currIdx := s.currIdx + 1
    currChar :=
      if s.currIdx + 1 < s.content.length then
        s.content.getD (s.currIdx + 1) s.currChar
      else s.currChar }

/-- `Parser::isEOF()`: `currIdx >= content.size()`. -/
def Parser.isEOF (s : Parser) : Bool := s.content.length ≤ s.currIdx

/-- `Parser::isWhitespace(char)`: space, newline, carriage return, tab. -/
def isWhitespace (c : Char) : Bool :=
  c == ' ' || c == '\n' || c == '\r' || c == '\t'

/-- Body of the `skipWhitespace` loop; the gas argument bounds the number
of iterations (see the file header). -/
def skipWhitespaceAux : Nat → Parser → Parser
  | 0, s => s
  | g + 1, s =>
      if s.isEOF then s
      else if isWhitespace s.currChar then
        skipWhitespaceAux g
          (Parser.advance
            (if s.currChar = '\n' then { s with currLine := s.currLine + 1 } else s))
      else s

/-- `Parser::skipWhitespace()`: consume whitespace, counting newlines into
`currLine`. -/
def Parser.skipWhitespace (s : Parser) : Parser :=
  skipWhitespaceAux (s.content.length - s.currIdx) s

/-- `content.substr(start, len)` (on the in-range uses the parser makes of
it): the slice of `len` characters starting at `start`, shorter if the
string ends first. -/
def substr (content : List Char) (start len : Nat) : List Char :=
  (content.drop start).take len

/-- The counting loop of `validateIdentifier`: advance until end-of-input
or until `n` characters were consumed, returning how many were consumed
and the final state. -/
def validateLoop : Nat → Parser → Nat × Parser
  | 0, s => (0, s)
  | n + 1, s =>
      if s.isEOF then (0, s)
      else
        let r := validateLoop n s.advance
        (r.1 + 1, r.2)

/-- `Parser::validateIdentifier(std::string)`: consume up to
`identifier.size()` characters and compare the consumed slice of `content`
with `identifier`. -/
def Parser.validateIdentifier (identifier : List Char) (s : Parser) : Bool × Parser :=
  let start := s.currIdx
  let r := validateLoop identifier.length s
  (substr s.content start r.1 = identifier, r.2)

/-- The line `Parser::reportError` prints:
`"[ERROR] At line <currLine>: <msg>\n"`. -/
def errLine (line : Nat) (msg : List Char) : List Char :=
  "[ERROR] At line ".data ++ natToString line ++ ": ".data ++ msg ++ ['\n']

/-- `Parser::reportError(std::string)`: print the error line and set
`isOk = false` (never reset inside a parse). -/
def Parser.reportError (msg : List Char) (s : Parser) : Parser :=
  { s with isOk := false, log := s.log ++ [errLine s.currLine msg] }

/-- `Parser::consume(char, std::string)`: report an error if `currChar`
differs from `c`, otherwise advance. -/
def Parser.consume (c : Char) (msg : List Char) (s : Parser) : Bool × Parser :=
  if s.currChar = c then (true, s.advance) else (false, s.reportError msg)

/-- The scanning loop of `parseString`: advance until end-of-input or a
`'"'`, counting the characters passed; gas as in the file header. -/
def scanStringAux : Nat → Parser → Nat × Parser
  | 0, s => (0, s)
  | g + 1, s =>
      if s.isEOF then (0, s)
      else if s.currChar = '"' then (0, s)
      else
        let r := scanStringAux g s.advance
        (r.1 + 1, r.2)

/-- `Parser::parseString()` (lines 343-358): consume an opening `'"'` if
present, scan to the next `'"'` or end-of-input with no escape
interpretation, `consume` the closing `'"'` (reporting an error when
`currChar` is not a `'"'`), and return the raw slice scanned over. -/
def Parser.parseString (s : Parser) : List Char × Parser :=
  let s0 := if s.currChar = '"' then s.advance else s
  let start := s0.currIdx
  let r := scanStringAux (s0.content.length - s0.currIdx) s0
  let c := Parser.consume '"' "Expected '\"' for string end".data r.2
  (substr c.2.content start r.1, c.2)

/-- The character class the `parseNumber` scanning loop accepts. -/
def isNumChar (c : Char) : Bool :=
  c.isDigit || c == '+' || c == '-' || c == '.' || c == 'e'

/-- The scanning loop of `parseNumber`: accept digits and `+ - . e`,
tracking whether a `'.'` (`floatingPoint`) or an `'e'` (`exponent`) was
already seen; a duplicate reports an error and breaks out of the loop
before the duplicate character is counted. -/
def scanNumberAux : Nat → Bool → Bool → Parser → Nat × Parser
  | 0, _, _, s => (0, s)
  | g + 1, fp, ex, s =>
      if s.isEOF then (0, s)
      else if ¬ isNumChar s.currChar then (0, s)
      else if s.currChar = '.' ∧ fp then
        (0, s.reportError "invalid number: duplicate floating point".data)
      else if s.currChar = 'e' ∧ ex then
        (0, s.reportError "invalid number: duplicate exponent symbol".data)
      else
        let r := scanNumberAux g (fp || s.currChar = '.') (ex || s.currChar = 'e') s.advance
        (r.1 + 1, r.2)

/-- The two ways `std::stod` can throw on the tokens `parseNumber` scans. -/
inductive StodError where
  | invalidArgument
  | outOfRange

/-- Value of a list of decimal digit characters. -/
def digitsToNat (ds : List Char) : Nat :=
  ds.foldl (fun acc c => acc * 10 + (c.toNat - 48)) 0

/-- Fuel-bounded floor of log2 (the fuel `n` itself suffices, since the
argument at least halves every step). -/
def natLog2Aux : Nat → Nat → Nat
  | 0, _ => 0
  | g + 1, n => if n ≤ 1 then 0 else natLog2Aux g (n / 2) + 1

/-- `⌊log2 n⌋` for `n ≥ 1` (0 at 0), by structural recursion so that it
reduces inside `decide`/`rfl` proofs. -/
def natLog2 (n : Nat) : Nat := natLog2Aux n n

/-- `⌊log2 (a / b)⌋` for `a, b ≥ 1` as exact rational division: the bit
lengths bracket the result to two candidates and one cross-multiplication
comparison picks the right one. -/
def floorLog2 (a b : ℕ) : ℤ :=
  let d : ℤ := (natLog2 a : ℤ) - (natLog2 b : ℤ)
  if 0 ≤ d then
    if 2 ^ d.toNat * b ≤ a then d else d - 1
  else
    if b ≤ 2 ^ (-d).toNat * a then d else d - 1

/-- Round to the nearest integer, ties to even. -/
def roundHalfEven (x : ℚ) : ℤ :=
  if x - (1 / 2 : ℚ) = (⌊x⌋ : ℚ) then (if ⌊x⌋ % 2 = 0 then ⌊x⌋ else ⌊x⌋ + 1)
  else ⌊x + 1 / 2⌋

/-- Rounding of an exact rational to IEEE-754 binary64 (`double`), the
result type of `std::stod`: round to nearest, ties to even, at 53
significant bits — the unit in the last place is `2^(e-52)` for
`2^e ≤ |q| < 2^(e+1)`, clamped to `2^-1074` below the normal range.
Applied by `stod` only below the `stodMax` overflow threshold, so no
infinity case arises; underflow of a tiny nonzero token to a subnormal or
to zero (where the platform `std::stod` would also throw `out_of_range`
via ERANGE) is not modelled, as every token a theorem below converts is
either zero, a multiple of 10^-6, or above the overflow threshold. -/
def roundToDouble (q : ℚ) : ℚ :=
  if q = 0 then 0
  else
    let p : ℤ := max (floorLog2 q.num.natAbs q.den - 52) (-1074)
    let scaled : ℚ :=
      if 0 ≤ p then |q| / ((2 ^ p.toNat : ℕ) : ℚ)
      else |q| * ((2 ^ (-p).toNat : ℕ) : ℚ)
    let mag : ℚ :=
      if 0 ≤ p then ((roundHalfEven scaled : ℤ) : ℚ) * ((2 ^ p.toNat : ℕ) : ℚ)
      else ((roundHalfEven scaled : ℤ) : ℚ) / ((2 ^ (-p).toNat : ℕ) : ℚ)
    if q < 0 then -mag else mag

/-- The magnitude at which the model's `stod` reports `out_of_range`. The
platform threshold is DBL_MAX ≈ 1.7976931348623157e308 (strictly below
2^1024); no theorem below instantiates `stod` anywhere near the boundary,
so the difference is unobservable in this development. -/
def stodMax : ℚ := ((2 ^ 1024 : ℕ) : ℚ)

/-- Model of `std::stod` on the tokens `parseNumber` can produce (characters
drawn from digits and `+ - . e` only, so hex/inf/nan forms cannot occur):
the longest valid prefix of `[sign] digits [. digits] [e [sign] digits]` is
converted; if it contains no digit at all, `std::invalid_argument` is
thrown; if the magnitude exceeds the double range, `std::out_of_range` is
thrown; otherwise the exact decimal value of the prefix is rounded to the
nearest `double` (`roundToDouble`), which is what `std::stod` returns. -/
def stodSign (tok : List Char) : ℚ × List Char :=
  match tok with
  | c :: r => if c = '-' then (-1, r) else if c = '+' then (1, r) else (1, c :: r)
  | [] => (1, [])

/-- The optional fractional part `. digits` of the strtod subject sequence. -/
def stodFrac (t : List Char) : List Char × List Char :=
  match t with
  | c :: r =>
      if c = '.' then (r.takeWhile Char.isDigit, r.dropWhile Char.isDigit)
      else ([], c :: r)
  | [] => ([], [])

/-- The optional exponent `e [sign] digits` of the strtod subject sequence
(included only when at least one exponent digit follows). -/
def stodExp (t : List Char) : Int :=
  match t with
  | c :: r =>
      if c = 'e' then
        let er : Int × List Char :=
          match r with
          | c2 :: r2 =>
              if c2 = '-' then (-1, r2) else if c2 = '+' then (1, r2) else (1, c2 :: r2)
          | [] => (1, [])
        let ed := er.2.takeWhile Char.isDigit
        if ed.isEmpty then 0 else er.1 * (digitsToNat ed : Int)
      else 0
  | [] => 0

def stod (tok : List Char) : Except StodError ℚ :=
  let sr := stodSign tok
  let d1 := sr.2.takeWhile Char.isDigit
  let t2 := sr.2.dropWhile Char.isDigit
  let fr := stodFrac t2
  if d1.isEmpty ∧ fr.1.isEmpty then Except.error StodError.invalidArgument
  else
    let mant : ℚ := sr.1 * ((digitsToNat (d1 ++ fr.1) : ℚ) / ((10 ^ fr.1.length : ℕ) : ℚ))
    let eVal : Int := stodExp fr.2
    let q : ℚ :=
      if 0 ≤ eVal then mant * ((10 ^ eVal.toNat : ℕ) : ℚ)
      else mant / ((10 ^ (- eVal).toNat : ℕ) : ℚ)
    if stodMax ≤ |q| then Except.error StodError.outOfRange
    else Except.ok (roundToDouble q)

/-- The warning line `parseNumber` prints on conversion overflow:
`"[WARNING] At line <currLine>: number overflow\n"`. -/
def warnLine (line : Nat) : List Char :=
  "[WARNING] At line ".data ++ natToString line ++ ": number overflow".data ++ ['\n']

/-- `Parser::parseNumber()` (lines 360-401): scan the numeric token, then
convert it with `std::stod` inside a `try` block whose only handler is for
`std::out_of_range` (print the overflow warning, fall through to
`return makeNumber(0)`); a successful conversion returns the number; an
`std::invalid_argument` escapes uncaught, modelled by setting `thrown`. -/
def Parser.parseNumber (s : Parser) : Value × Parser :=
  let start := s.currIdx
  let r := scanNumberAux (s.content.length - s.currIdx) false false s
  let tok := substr s.content start r.1
  match stod tok with
  | Except.ok q => (Value.vNumber q, r.2)
  | Except.error StodError.outOfRange =>
      (Value.vNumber 0, { r.2 with log := r.2.log ++ [warnLine r.2.currLine] })
  | Except.error StodError.invalidArgument =>
      (Value.vNumber 0, { r.2 with thrown := true })

/-- The `reportError` + `return Value()` epilogue of `parseElement`: the
message quotes the current character at the point of failure. -/
def unexpectedChar (s : Parser) : Value × Parser :=
  (Value.vUnknown,
    s.reportError ("Unexpected character: '".data ++ [s.currChar] ++ "'".data))

/-- `obj[name] = element` on the association-list model of
`std::unordered_map`: overwrite the existing binding in place or append a
new one. -/
def objInsert : List (List Char × Value) → List Char → Value → List (List Char × Value)
  | [], k, v => [(k, v)]
  | kv :: rest, k, v =>
      if kv.1 = k then (k, v) :: rest else kv :: objInsert rest k v

mutual
/-- `Parser::parseElement()` (lines 237-277): dispatch on the current
character; `t`/`f`/`n` try to match the literal keywords via
`validateIdentifier`; `+`, `-` or a digit goes to `parseNumber`; whitespace
is skipped and then (the `break` falls through the `switch`) the
unexpected-character error is reported with the then-current character;
anything else reports the unexpected-character error directly. -/
def Parser.parseElement : Nat → Parser → Value × Parser
  | 0, s => (Value.vUnknown, s)
  | fuel + 1, s =>
      if s.currChar = '\x7b' then Parser.parseObject fuel s
      else if s.currChar = '[' then Parser.parseArray fuel s
      else if s.currChar = '"' then
        let r := s.parseString
        (Value.vString r.1, r.2)
      else if s.currChar = 't' then
        let r := Parser.validateIdentifier "true".data s
        if r.1 then (Value.vBoolean true, r.2) else unexpectedChar r.2
      else if s.currChar = 'f' then
        let r := Parser.validateIdentifier "false".data s
        if r.1 then (Value.vBoolean false, r.2) else unexpectedChar r.2
      else if s.currChar = 'n' then
        let r := Parser.validateIdentifier "null".data s
        if r.1 then (Value.vNull, r.2) else unexpectedChar r.2
      else if s.currChar = '+' ∨ s.currChar = '-' ∨ s.currChar.isDigit then
        s.parseNumber
      else if isWhitespace s.currChar then
        unexpectedChar s.skipWhitespace
      else unexpectedChar s

/-- `Parser::parseObject()` (lines 279-315): consume `{` if present, skip
whitespace, run the member loop, then `consume('}')`. -/
def Parser.parseObject : Nat → Parser → Value × Parser
  | 0, s => (Value.vUnknown, s)
  | fuel + 1, s =>
      let s1 := if s.currChar = '\x7b' then s.advance else s
      let s2 := s1.skipWhitespace
      let r := Parser.parseObjectLoop fuel s2 []
      let c := Parser.consume '\x7d' "Expected '\x7d' for object end".data r.2
      (Value.vObject r.1, c.2)

/-- The member loop of `parseObject`: while not at end-of-input and not at
`}`, parse a key with `parseString`, require `:` (error and break
otherwise), parse the value element, store it with map semantics, and
continue only past a `,`. -/
def Parser.parseObjectLoop :
    Nat → Parser → List (List Char × Value) → List (List Char × Value) × Parser
  | 0, s, acc => (acc, s)
  | fuel + 1, s, acc =>
      if s.isEOF ∨ s.currChar = '\x7d' then (acc, s)
      else
        let s1 := s.skipWhitespace
        let ps := s1.parseString
        let s2 := ps.2.skipWhitespace
        if ¬ s2.currChar = ':' then
          (acc, s2.reportError "Expected ':' for value assignment".data)
        else
          let s3 := s2.advance.skipWhitespace
          let pe := Parser.parseElement fuel s3
          let s4 := pe.2.skipWhitespace
          let acc2 := objInsert acc ps.1 pe.1
          if ¬ s4.currChar = ',' then (acc2, s4)
          else Parser.parseObjectLoop fuel s4.advance acc2

/-- `Parser::parseArray()` (lines 317-341): consume `[` if present, skip
whitespace, run the element loop, then `consume(']')`. -/
def Parser.parseArray : Nat → Parser → Value × Parser
  | 0, s => (Value.vUnknown, s)
  | fuel + 1, s =>
      let s1 := if s.currChar = '[' then s.advance else s
      let s2 := s1.skipWhitespace
      let r := Parser.parseArrayLoop fuel s2 []
      let c := Parser.consume ']' "Expected ']' for array end".data r.2
      (Value.vArray r.1, c.2)

/-- The element loop of `parseArray`: while not at end-of-input and not at
`]`, parse an element, push it, and continue only past a `,`. -/
def Parser.parseArrayLoop : Nat → Parser → List Value → List Value × Parser
  | 0, s, acc => (acc, s)
  | fuel + 1, s, acc =>
      if s.isEOF ∨ s.currChar = ']' then (acc, s)
      else
        let s1 := s.skipWhitespace
        let pe := Parser.parseElement fuel s1
        let acc2 := acc ++ [pe.1]
        let s2 := pe.2.skipWhitespace
        if ¬ s2.currChar = ',' then (acc2, s2)
        else Parser.parseArrayLoop fuel s2.advance acc2
end

/-- `Parser::parse()` (lines 431-434): reset `isOk` to `true` and delegate
to `parseElement`. -/
def Parser.parse (fuel : Nat) (s : Parser) : Value × Parser :=
  Parser.parseElement fuel { s with isOk := true }

/-- `Parser::isOK()`. -/
def Parser.isOK (s : Parser) : Bool := s.isOk

/-- The character the parser's `currChar` latch holds when the cursor sits
at position `i` of `content` after having advanced over positions
`0..i-1`: the character at `i` while in range, and the last character of
the buffer once the cursor has just moved past the end (the stale latch
of `advance`). -/
def charAt (content : List Char) (i : Nat) : Char :=
  if i < content.length then content.getD i 'Z' else content.getLastD 'Z'

/-- The characters that may legally follow a complete rendered element in
the middle of a compact rendering: nothing (end of input), a separating
comma, or a closing bracket or brace. -/
def nextOk : List Char → Bool
  | [] => true
  | c :: _ => c == ',' || c == ']' || c == '\x7d'

mutual
/-- The class of Value trees for which the amended round-trip claim is
stated: no `Unknown` nodes; String payloads and Object keys are ASCII with
no `'"'` and no `'\'`; Object keys are pairwise distinct; every Number
payload is a multiple of 10^-6 (so that the six-decimal `%Lf` rendering is
exact), of magnitude below 2^63 (so that the `static_cast<long>` in the
renderer is defined), and exactly representable as an IEEE-754 `double`
(`roundToDouble q = q`) — `std::stod` returns a `double`, so a payload
that is not one (such as 2^62 + 1/2, a long double whose rendering
reparses as 2^62) cannot survive the reparse. -/
def goodValue : Value → Bool
  | .vObject fs => goodFields fs && decide ((fs.map Prod.fst).Nodup)
  | .vArray es => goodElems es
  | .vString s =>
      decide ('"' ∉ s) && decide ('\\' ∉ s) && s.all (fun c => decide (c.toNat < 128))
  | .vNumber q =>
      decide ((q * 1000000).den = 1) && decide (|q| < ((2 ^ 63 : ℕ) : ℚ)) &&
        decide (roundToDouble q = q)
  | .vBoolean _ => true
  | .vNull => true
  | .vUnknown => false

def goodElems : List Value → Bool
  | [] => true
  | e :: rest => goodValue e && goodElems rest

def goodFields : List (List Char × Value) → Bool
  | [] => true
  | kv :: rest =>
      decide ('"' ∉ kv.1) && decide ('\\' ∉ kv.1) &&
        kv.1.all (fun c => decide (c.toNat < 128)) && goodValue kv.2 && goodFields rest
end

mutual
/-- Fuel sufficient for `parseElement` to parse the compact rendering of a
Value: one unit per `parseElement`/`parseObject`/`parseArray` entry plus
one per member-loop entry. -/
def fuelNeed : Value → Nat
  | .vObject fs => 2 + fuelNeedFields fs
  | .vArray es => 2 + fuelNeedElems es
  | _ => 1

def fuelNeedElems : List Value → Nat
  | [] => 1
  | e :: rest => 1 + max (fuelNeed e) (fuelNeedElems rest)

def fuelNeedFields : List (List Char × Value) → Nat
  | [] => 1
  | kv :: rest => 1 + max (fuelNeed kv.2) (fuelNeedFields rest)
end

/-- The round-trip property of a single Value: from any synced cursor
position whose remaining input starts with the compact (indent 0)
rendering of the Value followed by a legal continuation, `parseElement`
with enough fuel returns exactly the Value and moves the cursor to the
end of the rendering, leaving every other component of the state (`isOk`,
`log`, `currLine`, `thrown`) untouched. -/
def RTPred (v : Value) : Prop :=
  ∀ (fuel d : Nat) (s : Parser) (rest : List Char),
    fuelNeed v ≤ fuel →
    s.content.drop s.currIdx = v.getRepresentation 0 d ++ rest →
    s.currChar = charAt s.content s.currIdx →
    nextOk rest = true →
    Parser.parseElement fuel s = (v, { s with
      currIdx := s.currIdx + (v.getRepresentation 0 d).length,
      currChar := charAt s.content (s.currIdx + (v.getRepresentation 0 d).length) })

/-! ### Infrastructure lemmas about the cursor model -/

theorem getD_eq_headD_drop (l : List Char) (i : Nat) (d : Char) :
    l.getD i d = (l.drop i).headD d := by
  induction l generalizing i with
  | nil => simp [List.getD]
  | cons c t ih =>
      cases i with
      | zero => simp
      | succ j =>
          simp only [List.getD_cons_succ, List.drop_succ_cons]
          exact ih j

theorem getLastD_eq_getD (l : List Char) (d : Char) (h : l ≠ []) :
    l.getLastD d = l.getD (l.length - 1) d := by
  induction l with
  | nil => simp at h
  | cons c t ih =>
      cases t with
      | nil => simp
      | cons c2 t2 =>
          rw [List.getLastD_cons]
          simpa using ih (by simp)

theorem drop_ne_nil_lt (l : List Char) (i : Nat) (h : l.drop i ≠ []) :
    i < l.length := by
  by_contra hle
  exact h (List.drop_eq_nil_iff.mpr (by omega))

theorem charAt_of_drop_cons (content : List Char) (i : Nat) (c : Char) (t : List Char)
    (h : content.drop i = c :: t) : charAt content i = c := by
  have hlt : i < content.length := drop_ne_nil_lt content i (by simp [h])
  rw [charAt, if_pos hlt, getD_eq_headD_drop, h]
  rfl

theorem charAt_of_drop_nil (content : List Char) (i : Nat)
    (h : content.drop i = []) : charAt content i = content.getLastD 'Z' := by
  rw [charAt, if_neg]
  have := List.drop_eq_nil_iff.mp h
  omega

theorem drop_succ_of_drop_cons (l : List Char) (i : Nat) (c : Char) (t : List Char)
    (h : l.drop i = c :: t) : l.drop (i + 1) = t := by
  rw [← List.tail_drop, h]
  rfl

/-- `advance` from an in-range position whose `currChar` is synced moves
the cursor one step right and keeps it synced (including the stale latch
when it just passed the end). -/
theorem advance_sync (s : Parser) (h : s.currIdx < s.content.length)
    (hc : s.currChar = charAt s.content s.currIdx) :
    s.advance = { s with currIdx := s.currIdx + 1,
                         currChar := charAt s.content (s.currIdx + 1) } := by
  rw [Parser.advance]
  by_cases h2 : s.currIdx + 1 < s.content.length
  · rw [if_pos h2, charAt, if_pos h2, List.getD_eq_getElem _ _ h2, List.getD_eq_getElem _ _ h2]
  · rw [if_neg h2, hc, charAt, if_pos h, charAt, if_neg h2]
    have hlen : s.currIdx = s.content.length - 1 := by omega
    have hne : s.content ≠ [] := by
      intro hnil
      rw [hnil] at h
      simp at h
    rw [getLastD_eq_getD _ _ hne, hlen]

theorem isEOF_false_of_lt (s : Parser) (h : s.currIdx < s.content.length) :
    s.isEOF = false := by
  simp [Parser.isEOF]
  omega

theorem isEOF_true_of_le (s : Parser) (h : s.content.length ≤ s.currIdx) :
    s.isEOF = true := by
  simp [Parser.isEOF]
  omega

theorem skipWhitespaceAux_not_ws (g : Nat) (s : Parser)
    (h : isWhitespace s.currChar = false) : skipWhitespaceAux g s = s := by
  cases g with
  | zero => rfl
  | succ g =>
      rw [skipWhitespaceAux]
      by_cases he : s.isEOF
      · rw [if_pos he]
      · rw [if_neg he, if_neg (by simp [h])]

theorem skipWhitespace_noop (s : Parser) (h : isWhitespace s.currChar = false) :
    s.skipWhitespace = s :=
  skipWhitespaceAux_not_ws _ s h

theorem getLastD_default_irrel (l : List Char) (h : l ≠ []) (d d2 : Char) :
    l.getLastD d = l.getLastD d2 := by
  cases l with
  | nil => simp at h
  | cons c t => rw [List.getLastD_cons, List.getLastD_cons]

theorem getLastD_append_of_ne_nil (p t : List Char) (h : t ≠ []) (d : Char) :
    (p ++ t).getLastD d = t.getLastD d := by
  induction p generalizing d with
  | nil => rfl
  | cons a p ih =>
      rw [List.cons_append, List.getLastD_cons, ih a]
      exact getLastD_default_irrel t h a d

theorem getLastD_of_drop (l t : List Char) (i : Nat) (hd : l.drop i = t) (h : t ≠ []) :
    l.getLastD 'Z' = t.getLastD 'Z' := by
  have := List.take_append_drop i l
  rw [hd] at this
  rw [← this, getLastD_append_of_ne_nil _ _ h]

/-! ### The `parseString` scanning loop -/

/-- The scan stops exactly at the next `'"'`, having counted the
characters before it and synchronously advanced the cursor over them. -/
theorem scanStringAux_terminated :
    ∀ (str : List Char) (g : Nat) (s : Parser) (rest : List Char),
      s.content.drop s.currIdx = str ++ '"' :: rest →
      s.currChar = charAt s.content s.currIdx →
      '"' ∉ str →
      str.length ≤ g →
      scanStringAux g s = (str.length, { s with
        currIdx := s.currIdx + str.length,
        currChar := charAt s.content (s.currIdx + str.length) }) := by
  intro str
  induction str with
  | nil =>
      intro g s rest hd hc _ _
      have hq : charAt s.content s.currIdx = '"' := charAt_of_drop_cons _ _ _ _ hd
      have hlt : s.currIdx < s.content.length := drop_ne_nil_lt _ _ (by simp [hd])
      have hs : { s with
          currIdx := s.currIdx + ([] : List Char).length,
          currChar := charAt s.content (s.currIdx + ([] : List Char).length) } = s := by
        simp [← hc]
      rw [hs]
      cases g with
      | zero => rfl
      | succ g =>
          rw [scanStringAux, if_neg (by simp [isEOF_false_of_lt s hlt]),
            if_pos (by rw [hc, hq])]
          rfl
  | cons c str ih =>
      intro g s rest hd hc hq hg
      cases g with
      | zero => simp at hg
      | succ g =>
          have hlt : s.currIdx < s.content.length := drop_ne_nil_lt _ _ (by simp [hd])
          have hcc : s.currChar = c := by
            rw [hc, charAt_of_drop_cons _ _ _ _ hd]
          have hnq : ¬ s.currChar = '"' := by
            rw [hcc]
            intro h
            exact hq (by simp [h])
          have hadv := advance_sync s hlt hc
          have hd2 : s.advance.content.drop s.advance.currIdx = str ++ '"' :: rest := by
            rw [hadv]
            exact drop_succ_of_drop_cons _ _ _ _ (by simpa using hd)
          have hc2 : s.advance.currChar = charAt s.advance.content s.advance.currIdx := by
            rw [hadv]
          have := ih g s.advance rest hd2 hc2 (fun h => hq (by simp [h])) (by simpa using hg)
          rw [scanStringAux, if_neg (by simp [isEOF_false_of_lt s hlt]), if_neg hnq, this,
            hadv]
          have harith : s.currIdx + 1 + str.length = s.currIdx + (str.length + 1) := by omega
          simp [harith]

/-- With no `'"'` left, the scan runs to end-of-input; the final `currChar`
is the stale last character of the buffer. -/
theorem scanStringAux_unterminated :
    ∀ (tail : List Char) (g : Nat) (s : Parser),
      s.content.drop s.currIdx = tail →
      s.currChar = charAt s.content s.currIdx →
      '"' ∉ tail →
      tail.length ≤ g →
      scanStringAux g s = (tail.length, { s with
        currIdx := s.currIdx + tail.length,
        currChar := charAt s.content (s.currIdx + tail.length) }) := by
  intro tail
  induction tail with
  | nil =>
      intro g s hd hc _ _
      have hge : s.content.length ≤ s.currIdx := List.drop_eq_nil_iff.mp hd
      have hs : { s with
          currIdx := s.currIdx + ([] : List Char).length,
          currChar := charAt s.content (s.currIdx + ([] : List Char).length) } = s := by
        simp [← hc]
      rw [hs]
      cases g with
      | zero => rfl
      | succ g =>
          rw [scanStringAux, if_pos (isEOF_true_of_le s hge)]
          rfl
  | cons c tail ih =>
      intro g s hd hc hq hg
      cases g with
      | zero => simp at hg
      | succ g =>
          have hlt : s.currIdx < s.content.length := drop_ne_nil_lt _ _ (by simp [hd])
          have hcc : s.currChar = c := by
            rw [hc, charAt_of_drop_cons _ _ _ _ hd]
          have hnq : ¬ s.currChar = '"' := by
            rw [hcc]
            intro h
            exact hq (by simp [h])
          have hadv := advance_sync s hlt hc
          have hd2 : s.advance.content.drop s.advance.currIdx = tail := by
            rw [hadv]
            exact drop_succ_of_drop_cons _ _ _ _ (by simpa using hd)
          have hc2 : s.advance.currChar = charAt s.advance.content s.advance.currIdx := by
            rw [hadv]
          have := ih g s.advance hd2 hc2 (fun h => hq (by simp [h])) (by simpa using hg)
          rw [scanStringAux, if_neg (by simp [isEOF_false_of_lt s hlt]), if_neg hnq, this,
            hadv]
          have harith : s.currIdx + 1 + tail.length = s.currIdx + (tail.length + 1) := by omega
          simp [harith]

theorem consume_matched (s : Parser) (c : Char) (msg : List Char)
    (h : s.currChar = c) : Parser.consume c msg s = (true, s.advance) := by
  rw [Parser.consume, if_pos h]

theorem consume_mismatched (s : Parser) (c : Char) (msg : List Char)
    (h : ¬ s.currChar = c) : Parser.consume c msg s = (false, s.reportError msg) := by
  rw [Parser.consume, if_neg h]

/-! ### `parseString` behaviour -/

/-- A well-formed string literal: `parseString` consumes the opening quote,
the body and the closing quote, returns the raw body, and reports nothing
(`isOk`, `log`, `currLine` untouched). -/
theorem parseString_terminated (s : Parser) (str rest : List Char)
    (hd : s.content.drop s.currIdx = '"' :: (str ++ '"' :: rest))
    (hc : s.currChar = charAt s.content s.currIdx)
    (hq : '"' ∉ str) :
    s.parseString = (str, { s with
      currIdx := s.currIdx + str.length + 2,
      currChar := charAt s.content (s.currIdx + str.length + 2) }) := by
  have hlt : s.currIdx < s.content.length := drop_ne_nil_lt _ _ (by simp [hd])
  have hlen : s.content.length - s.currIdx = str.length + rest.length + 2 := by
    have := congrArg List.length hd
    simp [List.length_drop] at this
    omega
  have hq0 : s.currChar = '"' := by rw [hc, charAt_of_drop_cons _ _ _ _ hd]
  have hadv := advance_sync s hlt hc
  have hdrop1 : s.content.drop (s.currIdx + 1) = str ++ '"' :: rest :=
    drop_succ_of_drop_cons _ _ _ _ hd
  have hscan := scanStringAux_terminated str (s.content.length - (s.currIdx + 1))
    { s with currIdx := s.currIdx + 1, currChar := charAt s.content (s.currIdx + 1) } rest
    (by show s.content.drop (s.currIdx + 1) = _; exact hdrop1)
    rfl hq (by show str.length ≤ s.content.length - (s.currIdx + 1); omega)
  simp only at hscan
  have hq1 : charAt s.content (s.currIdx + 1 + str.length) = '"' := by
    apply charAt_of_drop_cons _ _ _ rest
    calc s.content.drop (s.currIdx + 1 + str.length)
        = (s.content.drop (s.currIdx + 1)).drop str.length := by
          rw [List.drop_drop]
      _ = '"' :: rest := by rw [hdrop1, List.drop_left]
  have hlt1 : s.currIdx + 1 + str.length < s.content.length := by omega
  have hadv2 := advance_sync
    { s with currIdx := s.currIdx + 1 + str.length,
             currChar := charAt s.content (s.currIdx + 1 + str.length) } hlt1 rfl
  simp only at hadv2
  rw [Parser.parseString, if_pos hq0, hadv]
  simp only
  rw [hscan]
  simp only
  rw [consume_matched _ _ _ (by show charAt s.content (s.currIdx + 1 + str.length) = _; exact hq1)]
  simp only
  rw [hadv2]
  simp only [Prod.mk.injEq]
  constructor
  · show substr s.content (s.currIdx + 1) str.length = str
    rw [substr, hdrop1, ← List.take_left str ('"' :: rest)]
    simp
  · have h3 : s.currIdx + 1 + str.length + 1 = s.currIdx + str.length + 2 := by omega
    rw [h3]

/-- No `'"'` anywhere after the opening quote and at least one more
character: the scan runs to end-of-input, the stale `currChar` is the
buffer's last character (not a `'"'`), so `consume` reports the
string-end error and `isOk` becomes false. -/
theorem parseString_unterminated_err (s : Parser) (tail : List Char)
    (hd : s.content.drop s.currIdx = '"' :: tail)
    (hc : s.currChar = charAt s.content s.currIdx)
    (hq : '"' ∉ tail) (hne : tail ≠ []) :
    s.parseString = (tail, { s with
      currIdx := s.content.length,
      currChar := tail.getLastD 'Z',
      isOk := false,
      log := s.log ++ [errLine s.currLine "Expected '\"' for string end".data] }) := by
  have hlt : s.currIdx < s.content.length := drop_ne_nil_lt _ _ (by simp [hd])
  have hlen : s.content.length - s.currIdx = tail.length + 1 := by
    have := congrArg List.length hd
    simp [List.length_drop] at this
    omega
  have hq0 : s.currChar = '"' := by rw [hc, charAt_of_drop_cons _ _ _ _ hd]
  have hadv := advance_sync s hlt hc
  have hdrop1 : s.content.drop (s.currIdx + 1) = tail :=
    drop_succ_of_drop_cons _ _ _ _ hd
  have hscan := scanStringAux_unterminated tail (s.content.length - (s.currIdx + 1))
    { s with currIdx := s.currIdx + 1, currChar := charAt s.content (s.currIdx + 1) }
    (by show s.content.drop (s.currIdx + 1) = _; exact hdrop1)
    rfl hq (by show tail.length ≤ s.content.length - (s.currIdx + 1); omega)
  simp only at hscan
  have hfin : charAt s.content (s.currIdx + 1 + tail.length) = tail.getLastD 'Z' := by
    rw [charAt_of_drop_nil]
    · exact getLastD_of_drop s.content tail (s.currIdx + 1) hdrop1 hne
    · apply List.drop_eq_nil_iff.mpr
      omega
  have hnq : ¬ tail.getLastD 'Z' = '"' := by
    intro h
    apply hq
    have hmem := List.getLastD_mem_cons tail 'Z'
    rcases List.mem_cons.mp hmem with h2 | h2
    · cases tail with
      | nil => exact absurd rfl hne
      | cons a t =>
          rw [h] at h2
          simp at h2
    · rw [← h]
      exact h2
  rw [Parser.parseString, if_pos hq0, hadv]
  simp only
  rw [hscan]
  simp only
  rw [consume_mismatched _ _ _
    (by show ¬ charAt s.content (s.currIdx + 1 + tail.length) = '"'; rw [hfin]; exact hnq)]
  simp only [Parser.reportError]
  simp only [Prod.mk.injEq]
  constructor
  · show substr s.content (s.currIdx + 1) tail.length = tail
    rw [substr, hdrop1, List.take_length]
  · simp only [hfin]
    have h3 : s.currIdx + 1 + tail.length = s.content.length := by omega
    simp only [h3]

/-- The opening quote is the very last character of the buffer: the scan
sees end-of-input at once, but the stale `currChar` still holds the quote
that was just consumed, so `consume` succeeds and NO error is
reported: `parseString` returns the empty string with `isOk` untouched. -/
theorem parseString_unterminated_nil (s : Parser) (hd : s.content.drop s.currIdx = ['"'])
    (hc : s.currChar = charAt s.content s.currIdx) :
    s.parseString = ([], { s with currIdx := s.currIdx + 2, currChar := '"' }) := by
  have hlt : s.currIdx < s.content.length := drop_ne_nil_lt _ _ (by simp [hd])
  have hlen : s.content.length - s.currIdx = 1 := by
    have := congrArg List.length hd
    simp [List.length_drop] at this
    omega
  have hq0 : s.currChar = '"' := by rw [hc, charAt_of_drop_cons _ _ _ _ hd]
  have hadv := advance_sync s hlt hc
  have hdrop1 : s.content.drop (s.currIdx + 1) = [] := by
    have := drop_succ_of_drop_cons s.content s.currIdx '"' [] hd
    simpa using this
  have hstale : charAt s.content (s.currIdx + 1) = '"' := by
    rw [charAt_of_drop_nil _ _ hdrop1]
    have := getLastD_of_drop s.content ['"'] s.currIdx hd (by simp)
    rw [this]
    rfl
  have hscan := scanStringAux_unterminated [] (s.content.length - (s.currIdx + 1))
    { s with currIdx := s.currIdx + 1, currChar := charAt s.content (s.currIdx + 1) }
    (by show s.content.drop (s.currIdx + 1) = _; exact hdrop1)
    rfl (by simp) (by simp)
  simp only at hscan
  rw [Parser.parseString, if_pos hq0, hadv]
  simp only
  rw [hscan]
  simp only [List.length_nil, Nat.add_zero]
  rw [consume_matched _ _ _ (by show charAt s.content (s.currIdx + 1) = _; exact hstale)]
  simp only [Parser.advance]
  rw [if_neg (by show ¬ (s.currIdx + 1 + 1 < s.content.length); omega)]
  simp only [Prod.mk.injEq]
  constructor
  · show substr s.content (s.currIdx + 1) 0 = []
    rw [substr]
    simp
  · simp only [hstale]

/-! ### Claim C2 — empty containers -/

/-- C2 counterexample: the claim says an empty Array renders as `"[]"` for
every indent width including 4, but `getRepresentation` appends the
newline unconditionally whenever `indent > 0` (lines 126-128 run even when
the element loop did nothing), so at indent 4 the empty Array renders as
`"[\n]"`, not `"[]"` (and the empty Object as `"{\n}"`). -/
theorem C2_empty_containers_counterexample :
    (Value.vArray []).getRepresentation 4 0 = "[\n]".data ∧
      ¬ (Value.vArray []).getRepresentation 4 0 = "[]".data := by
  constructor
  · rfl
  · decide

/-- C2 amended: an empty Array renders as `"[]"` and an empty Object as
`"{}"` only in compact mode (`indent = 0`); for `indent > 0` a newline IS
inserted and they render as `"[\n]"` and `"{\n}"` respectively (at depth
0, where no indentation spaces are added before the closer). -/
theorem C2_empty_containers_amended (indent : Nat) :
    (Value.vArray []).getRepresentation indent 0 =
      (if 0 < indent then "[\n]".data else "[]".data) ∧
    (Value.vObject []).getRepresentation indent 0 =
      (if 0 < indent then "\x7b\n\x7d".data else "\x7b\x7d".data) := by
  constructor <;>
  · rw [Value.getRepresentation]
    by_cases h : 0 < indent <;>
      simp [h, renderArrayItems, renderObjectItems, String.data]

/-! ### Claim C3 — number rendering -/

/-- C3 counterexample: the claim says a Number holding 3.5 renders as
`"3.5"`, but the source renders non-integral numbers with
`std::to_string(long double)`, which is `sprintf("%Lf")`, i.e. fixed-point
with six fractional digits: 3.5 renders as `"3.500000"`. -/
theorem C3_number_rendering_counterexample :
    ¬ (Value.vNumber ((7 : ℚ) / 2)).getRepresentation 0 0 = "3.5".data := by
  decide

/-- C3 amended: a Number whose value is mathematically integral (and in
the range where the `static_cast<long>` is defined) renders as an integer
literal with no decimal point (`3.0` renders as `"3"`); a non-integral
Number renders via `std::to_string`'s fixed-point `%Lf` conversion with
six fractional digits, so `3.5` renders as `"3.500000"`, not `"3.5"`. -/
theorem C3_number_rendering_amended :
    (∀ q : ℚ, q.den = 1 → |q| < ((2 ^ 63 : ℕ) : ℚ) →
        (Value.vNumber q).getRepresentation 0 0 = intToString q.num) ∧
    (Value.vNumber 3).getRepresentation 0 0 = "3".data ∧
    (Value.vNumber ((7 : ℚ) / 2)).getRepresentation 0 0 = "3.500000".data := by
  refine ⟨fun q hden _ => ?_, rfl, rfl⟩
  have hnum : (q.num : ℚ) = q := Rat.coe_int_num_of_den_eq_one hden
  have htr : ratTrunc q = q.num := by
    rw [ratTrunc, hden]
    exact Int.tdiv_one q.num
  rw [Value.getRepresentation, htr, if_pos (by rw [hnum]; ring)]

/-- C3 witness: the integral branch of the amended claim instantiated at
`q = 3`. -/
theorem C3_number_rendering_amended_witness :
    ((3 : ℚ)).den = 1 ∧ |(3 : ℚ)| < ((2 ^ 63 : ℕ) : ℚ) ∧
      (Value.vNumber 3).getRepresentation 0 0 = intToString (3 : ℚ).num :=
  ⟨by decide, by norm_num,
    C3_number_rendering_amended.1 3 (by decide) (by norm_num)⟩

/-! ### Claim C4 — error flag semantics -/

/-- C4: `parse("{}")` returns an empty Object with `isOK() == true`, while
`parse("[1 2]")` (missing comma) returns with `isOK() == false` and the
element loop stops after the first element, so the Array holds only the
Number 1. Stated for every sufficiently large fuel. -/
theorem C4_error_flag_semantics (f : Nat) :
    (Parser.parse (f + 9) (Parser.init "\x7b\x7d".data)).1 = Value.vObject [] ∧
    (Parser.parse (f + 9) (Parser.init "\x7b\x7d".data)).2.isOK = true ∧
    (Parser.parse (f + 9) (Parser.init "[1 2]".data)).1 =
      Value.vArray [Value.vNumber 1] ∧
    (Parser.parse (f + 9) (Parser.init "[1 2]".data)).2.isOK = false :=
  ⟨rfl, rfl, rfl, rfl⟩

/-! ### Claim C6 — string lexing -/

/-- C6 counterexample: the claim says that reaching end-of-input before a
closing `'"'` reports an error, but on the input consisting of a single
`'"'` the parse succeeds: after the opening quote is consumed the cursor
is past the end, yet `currChar` still (stale) holds that very `'"'`, so
`consume('"')` passes and no error is reported — `isOK()` stays true and
the result is the empty String. -/
theorem C6_parse_string_counterexample :
    (Parser.parse 3 (Parser.init "\"".data)).2.isOK = true ∧
      (Parser.parse 3 (Parser.init "\"".data)).1 = Value.vString [] :=
  ⟨rfl, rfl⟩

/-- C6 amended: `parseString` performs no escape interpretation and
returns the raw slice strictly between the opening quote and the very
next `'"'` byte, reporting nothing, whenever a closing `'"'` exists; when
end-of-input is reached before a closing `'"'`, an error is reported
(failure flag set) whenever at least one character follows the opening
quote — but when the opening quote is the buffer's last character, the
stale `currChar` latch still holds that quote, `consume('"')` succeeds,
and no error is reported. -/
theorem C6_parse_string_amended :
    (∀ (s : Parser) (str rest : List Char),
        s.content.drop s.currIdx = '"' :: (str ++ '"' :: rest) →
        s.currChar = charAt s.content s.currIdx →
        '"' ∉ str →
        s.parseString = (str, { s with
          currIdx := s.currIdx + str.length + 2,
          currChar := charAt s.content (s.currIdx + str.length + 2) })) ∧
    (∀ (s : Parser) (tail : List Char),
        s.content.drop s.currIdx = '"' :: tail →
        s.currChar = charAt s.content s.currIdx →
        '"' ∉ tail → tail ≠ [] →
        (s.parseString.1 = tail ∧ s.parseString.2.isOk = false)) ∧
    (∀ (s : Parser),
        s.content.drop s.currIdx = ['"'] →
        s.currChar = charAt s.content s.currIdx →
        (s.parseString.1 = [] ∧ s.parseString.2.isOk = s.isOk)) := by
  refine ⟨fun s str rest hd hc hq => parseString_terminated s str rest hd hc hq,
    fun s tail hd hc hq hne => ?_, fun s hd hc => ?_⟩
  · rw [parseString_unterminated_err s tail hd hc hq hne]
    exact ⟨rfl, rfl⟩
  · rw [parseString_unterminated_nil s hd hc]
    exact ⟨rfl, rfl⟩

/-- C6 witness: the three branches of the amended claim at the concrete
inputs `"a"` (terminated), `"ab` (unterminated with content: error) and
`"` (bare quote at end of input: no error). -/
theorem C6_parse_string_amended_witness :
    ((Parser.init "\"a\"".data).parseString.1 = "a".data ∧
      (Parser.init "\"ab".data).parseString.1 = "ab".data ∧
      (Parser.init "\"ab".data).parseString.2.isOk = false ∧
      (Parser.init "\"".data).parseString.1 = [] ∧
      (Parser.init "\"".data).parseString.2.isOk = true) := by
  have h1 := C6_parse_string_amended.1 (Parser.init "\"a\"".data) "a".data []
    (by decide) (by decide) (by decide)
  have h2 := C6_parse_string_amended.2.1 (Parser.init "\"ab".data) "ab".data
    (by decide) (by decide) (by decide) (by decide)
  have h3 := C6_parse_string_amended.2.2 (Parser.init "\"".data)
    (by decide) (by decide)
  exact ⟨by rw [h1], h2.1, h2.2, h3.1, h3.2⟩

/-! ### Claim C7 — indexed access -/

/-- C7 counterexample: the claim says out-of-bounds `arr[i]` fails with
`IndexOutOfRange`, but the source's `operator[](int)` is an unchecked
`std::vector::operator[]` access: no such error (or any failure outcome)
exists anywhere in the program — out of bounds there is no defined
result at all (undefined behaviour), modelled as `none`. Concretely,
indexing the empty Array at 0 produces no `IndexOutOfRange` failure —
there is no defined outcome. -/
theorem C7_indexed_access_counterexample :
    (Value.vArray []).atIndex 0 = none ∧ (Value.vArray []).atIndex 5 = none :=
  ⟨rfl, rfl⟩

/-- C7 amended: for an Array, `arr[i]` returns element `i` when `i` is in
bounds; out of bounds the access is unchecked (undefined behaviour in the
C++, `none` in the model) — it does not fail with `IndexOutOfRange` or any
other reported error. -/
theorem C7_indexed_access_amended :
    (∀ (es : List Value) (i : Nat) (h : i < es.length),
        (Value.vArray es).atIndex i = some (es.get ⟨i, h⟩)) ∧
    (∀ (es : List Value) (i : Nat), es.length ≤ i →
        (Value.vArray es).atIndex i = none) := by
  constructor
  · intro es i h
    rw [Value.atIndex, Value.toArray]
    exact List.get?_eq_get h
  · intro es i h
    rw [Value.atIndex, Value.toArray]
    exact List.get?_eq_none.mpr h

/-- C7 witness: the amended claim at a concrete two-element Array, in
bounds at index 1 and out of bounds at index 2. -/
theorem C7_indexed_access_amended_witness :
    (1 < [Value.vNull, Value.vBoolean true].length ∧
      (Value.vArray [Value.vNull, Value.vBoolean true]).atIndex 1 =
        some (Value.vBoolean true)) ∧
    ([Value.vNull].length ≤ 3 ∧ (Value.vArray [Value.vNull]).atIndex 3 = none) :=
  ⟨⟨by decide, C7_indexed_access_amended.1 [Value.vNull, Value.vBoolean true] 1
      (by decide)⟩,
    ⟨by decide, C7_indexed_access_amended.2 [Value.vNull] 3 (by decide)⟩⟩

/-! ### Claim C8 — bare object keys -/

/-- C8 counterexample: the claim says every object body whose key position
holds a character other than `'"'` makes the parse fail, because
`parseString` itself errors when the current character is not an opening
quote. But `parseString` only errors when no closing `'"'` is found: on
`{a": 1}` the key position holds `'a'`, `parseString` scans to the next
`'"'`, returns the slice `"a"` without any error, and the whole parse
succeeds with `isOK() == true`. -/
theorem C8_bare_keys_counterexample :
    (Parser.parse 9 (Parser.init "\x7ba\": 1\x7d".data)).2.isOK = true ∧
    (Parser.parse 9 (Parser.init "\x7ba\": 1\x7d".data)).1 =
      Value.vObject [("a".data, Value.vNumber 1)] :=
  ⟨rfl, rfl⟩

/-- C8 amended: a bare (unquoted) object key is not separately diagnosed.
`parseString`, finding no opening quote, scans the raw text up to the next
`'"'` byte and errors only when end-of-input arrives first (with the input
not ending in `'"'`): an object body with no `'"'` at all after the bare
key, such as `{a: 1}`, does set `isOK()` false, but a later `'"'` can let
the parse succeed, as in `{a": 1}`, which parses to the object with key
`"a"` and `isOK() == true`. -/
theorem C8_bare_keys_amended (f : Nat) :
    (Parser.parse (f + 9) (Parser.init "\x7ba: 1\x7d".data)).2.isOK = false ∧
    (Parser.parse (f + 9) (Parser.init "\x7ba\": 1\x7d".data)).2.isOK = true ∧
    (Parser.parse (f + 9) (Parser.init "\x7ba\": 1\x7d".data)).1 =
      Value.vObject [("a".data, Value.vNumber 1)] :=
  ⟨rfl, rfl, rfl⟩

/-! ### Claim C9 — totality of parse -/

/-- C9 counterexample: the claim says `parse()` never propagates an
exception, in particular on the input `"-"`. But the number scanner
accepts the bare sign, `std::stod("-")` throws `std::invalid_argument`,
and the `try` block in `parseNumber` catches only `std::out_of_range`:
the exception escapes `parse()` (the model's `thrown` flag). -/
theorem C9_parse_total_counterexample :
    (Parser.parse 2 (Parser.init "-".data)).2.thrown = true := rfl

/-- C9 amended: on the input `"-"` (a numeric token with no digits) the
numeric conversion raises `std::invalid_argument`, which no handler in
the program catches — `parse` propagates the exception, printing nothing;
only the out-of-range failure is handled (as the overflow input `1e309`
shows: caught, warning printed, no exception). -/
theorem C9_parse_total_amended (f : Nat) :
    (Parser.parse (f + 2) (Parser.init "-".data)).2.thrown = true ∧
    (Parser.parse (f + 2) (Parser.init "-".data)).2.log = [] ∧
    stod "-".data = Except.error StodError.invalidArgument ∧
    (Parser.parse (f + 2) (Parser.init "1e309".data)).2.thrown = false :=
  ⟨rfl, rfl, rfl, rfl⟩

/-! ### Claim C10 — empty input -/

/-- C10: `parse()` on the empty string reports the unexpected-character
error (the current character is still the `'\0'` the parser was
initialised with, since `advance()` found no content to load), sets
`isOK()` false, and returns a Value in the Unknown variant. -/
theorem C10_empty_input (f : Nat) :
    (Parser.parse (f + 1) (Parser.init [])).1 = Value.vUnknown ∧
    (Parser.parse (f + 1) (Parser.init [])).2.isOK = false ∧
    (Parser.parse (f + 1) (Parser.init [])).2.log =
      ["[ERROR] At line 1: Unexpected character: '\x00'\n".data] ∧
    (Parser.parse (f + 1) (Parser.init [])).2.currChar = '\x00' :=
  ⟨rfl, rfl, rfl, rfl⟩

/-! ### Claim C1 — round trip (counterexample part) -/

/-- C1 counterexample: the claim quantifies over every Value tree with
quote-free ASCII strings, including every Number payload; but the Number
`10^-7` renders (via the six-decimal `%Lf` conversion) as `"0.000000"`,
which parses back to the Number `0`, not `10^-7`: the round trip fails. -/
theorem C1_roundtrip_counterexample :
    ¬ (Parser.parse 5 (Parser.init
        ((Value.vNumber ((1 : ℚ) / 10000000)).getRepresentation 0 0))).1 =
      Value.vNumber ((1 : ℚ) / 10000000) := by
  rw [show (Parser.parse 5 (Parser.init
      ((Value.vNumber ((1 : ℚ) / 10000000)).getRepresentation 0 0))).1 =
      Value.vNumber 0 from rfl]
  intro h
  have : (0 : ℚ) = (1 : ℚ) / 10000000 := congrArg
    (fun v => match v with
      | Value.vNumber q => q
      | _ => 0) h
  norm_num at this

/-! ### Claim C5 — numeric overflow is non-fatal -/

theorem isDigit_ne_dispatch (c : Char) (hd : c.isDigit = true) :
    ¬ c = '\x7b' ∧ ¬ c = '[' ∧ ¬ c = '"' ∧ ¬ c = 't' ∧ ¬ c = 'f' ∧ ¬ c = 'n' := by
  refine ⟨?_, ?_, ?_, ?_, ?_, ?_⟩ <;>
  · intro h
    rw [h] at hd
    simp at hd

/-- C5: for every input that begins a numeric literal (so `parseElement`
dispatches to `parseNumber`), if the scan itself reports no error and the
conversion of the scanned token overflows (`std::out_of_range`), then
`parse` returns the Number 0, appends exactly the overflow warning to the
diagnostics, and `isOK()` remains true — overflow never touches the
failure flag. -/
theorem C5_overflow_nonfatal (c : Char) (rest : List Char) (f : Nat)
    (hc : c = '+' ∨ c = '-' ∨ c.isDigit = true)
    (hok : (scanNumberAux (c :: rest).length false false
        (Parser.init (c :: rest))).2.isOk = true)
    (hov : stod (substr (c :: rest) 0
        (scanNumberAux (c :: rest).length false false (Parser.init (c :: rest))).1) =
      Except.error StodError.outOfRange) :
    (Parser.parse (f + 1) (Parser.init (c :: rest))).1 = Value.vNumber 0 ∧
    (Parser.parse (f + 1) (Parser.init (c :: rest))).2.isOK = true ∧
    (Parser.parse (f + 1) (Parser.init (c :: rest))).2.log =
      (scanNumberAux (c :: rest).length false false (Parser.init (c :: rest))).2.log ++
        [warnLine (scanNumberAux (c :: rest).length false false
          (Parser.init (c :: rest))).2.currLine] := by
  have hch : (Parser.init (c :: rest)).currChar = c := by
    rw [Parser.init]
    simp
  have hstep : Parser.parse (f + 1) (Parser.init (c :: rest)) =
      (Parser.init (c :: rest)).parseNumber := by
    rw [Parser.parse]
    have hres : { Parser.init (c :: rest) with isOk := true } =
        Parser.init (c :: rest) := rfl
    rw [hres, Parser.parseElement]
    have hnum : c = '+' ∨ c = '-' ∨ c.isDigit = true → True := fun _ => trivial
    rcases hc with h | h | h
    · rw [hch, h]
      rfl
    · rw [hch, h]
      rfl
    · obtain ⟨h1, h2, h3, h4, h5, h6⟩ := isDigit_ne_dispatch c h
      rw [hch]
      rw [if_neg h1, if_neg h2, if_neg h3, if_neg h4, if_neg h5, if_neg h6,
        if_pos (Or.inr (Or.inr h))]
  rw [hstep, Parser.parseNumber]
  simp only
  have hgas : (Parser.init (c :: rest)).content.length -
      (Parser.init (c :: rest)).currIdx = (c :: rest).length := rfl
  rw [hgas]
  have hstart : (Parser.init (c :: rest)).currIdx = 0 := rfl
  rw [hstart]
  have hcontent : (Parser.init (c :: rest)).content = c :: rest := rfl
  rw [hcontent, hov]
  exact ⟨rfl, hok, rfl⟩

/-- C5 witness: the overflow literal `1e309` (exceeding the double range):
scan is clean, conversion overflows, `parse` returns Number 0 with
`isOK()` true and exactly the warning line logged. -/
theorem C5_overflow_nonfatal_witness :
    (('1' : Char).isDigit = true) ∧
    (scanNumberAux ("1e309".data.length) false false
        (Parser.init "1e309".data)).2.isOk = true ∧
    stod (substr "1e309".data 0 (scanNumberAux ("1e309".data.length) false false
        (Parser.init "1e309".data)).1) = Except.error StodError.outOfRange ∧
    (Parser.parse 2 (Parser.init "1e309".data)).1 = Value.vNumber 0 ∧
    (Parser.parse 2 (Parser.init "1e309".data)).2.isOK = true ∧
    (Parser.parse 2 (Parser.init "1e309".data)).2.log =
      ["[WARNING] At line 1: number overflow\n".data] := by
  have h := C5_overflow_nonfatal '1' "e309".data 1 (Or.inr (Or.inr rfl)) rfl rfl
  refine ⟨rfl, rfl, rfl, h.1, h.2.1, ?_⟩
  rw [h.2.2]
  rfl

/-! ### Decimal digit strings: correctness of the integer renderer -/

theorem digitChar_isDigit (d : Nat) (h : d < 10) :
    (Char.ofNat (48 + d)).isDigit = true := by
  interval_cases d <;> decide

theorem digitChar_toNat (d : Nat) (h : d < 10) :
    (Char.ofNat (48 + d)).toNat - 48 = d := by
  interval_cases d <;> decide

theorem natToStringAux_eq_digits :
    ∀ (f n : Nat) (acc : List Char), n < f → n ≠ 0 →
      natToStringAux f n acc =
        ((Nat.digits 10 n).map (fun d => Char.ofNat (48 + d))).reverse ++ acc := by
  intro f
  induction f with
  | zero => omega
  | succ f ih =>
      intro n acc hf hn
      rw [natToStringAux]
      have hdig : Nat.digits 10 n = n % 10 :: Nat.digits 10 (n / 10) :=
        Nat.digits_def' (by norm_num) (Nat.pos_of_ne_zero hn)
      by_cases h10 : n < 10
      · rw [if_pos h10]
        have hq : n / 10 = 0 := Nat.div_eq_of_lt h10
        have hm : n % 10 = n := Nat.mod_eq_of_lt h10
        rw [hdig, hq, hm]
        simp
      · rw [if_neg h10]
        have hlt : n / 10 < f := by
          have h1 : n / 10 < n := Nat.div_lt_self (by omega) (by norm_num)
          omega
        have hne : n / 10 ≠ 0 := by
          have := Nat.div_pos (by omega : 10 ≤ n) (by norm_num)
          omega
        rw [ih (n / 10) _ hlt hne, hdig]
        simp

theorem natToString_zero : natToString 0 = ['0'] := rfl

theorem natToString_eq_digits (n : Nat) (hn : n ≠ 0) :
    natToString n = ((Nat.digits 10 n).map (fun d => Char.ofNat (48 + d))).reverse := by
  rw [natToString, natToStringAux_eq_digits (n + 1) n [] (by omega) hn]
  simp

theorem natToString_all_digit (n : Nat) :
    ∀ c ∈ natToString n, c.isDigit = true := by
  by_cases hn : n = 0
  · subst hn
    intro c hc
    rw [natToString_zero] at hc
    simp at hc
    rw [hc]
    rfl
  · intro c hc
    rw [natToString_eq_digits n hn] at hc
    simp at hc
    obtain ⟨d, hd, hcd⟩ := hc
    rw [← hcd]
    exact digitChar_isDigit d (Nat.digits_lt_base (by norm_num) hd)

theorem natToString_ne_nil (n : Nat) : natToString n ≠ [] := by
  by_cases hn : n = 0
  · subst hn
    rw [natToString_zero]
    simp
  · rw [natToString_eq_digits n hn]
    simp [Nat.digits_ne_nil_iff_ne_zero.mpr hn]

theorem foldl_digits (ds : List Nat) :
    ∀ (a : Nat), (∀ d ∈ ds, d < 10) →
      List.foldl (fun x c => x * 10 + (c.toNat - 48)) a
        ((ds.map (fun d => Char.ofNat (48 + d))).reverse) =
      a * 10 ^ ds.length + Nat.ofDigits 10 ds := by
  induction ds with
  | nil =>
      intro a _
      simp [Nat.ofDigits]
  | cons d ds ih =>
      intro a hlt
      have hd : d < 10 := hlt d (by simp)
      rw [List.map_cons, List.reverse_cons, List.foldl_append,
        ih a (fun x hx => hlt x (by simp [hx]))]
      simp only [List.foldl_cons, List.foldl_nil, Nat.ofDigits_cons, List.length_cons]
      rw [digitChar_toNat d hd]
      ring

theorem digitsToNat_natToString (n : Nat) : digitsToNat (natToString n) = n := by
  by_cases hn : n = 0
  · subst hn
    rfl
  · rw [natToString_eq_digits n hn, digitsToNat,
      foldl_digits (Nat.digits 10 n) 0 (fun d hd => Nat.digits_lt_base (by norm_num) hd)]
    simp [Nat.ofDigits_digits]

theorem natToString_length_le (n k : Nat) (h : n < 10 ^ k) :
    (natToString n).length ≤ max k 1 := by
  by_cases hn : n = 0
  · subst hn
    rw [natToString_zero]
    simp
  · rw [natToString_eq_digits n hn]
    simp only [List.length_reverse, List.length_map]
    have h2 := Nat.base_pow_length_digits_le 10 n (by norm_num) hn
    have h3 : 10 ^ (Nat.digits 10 n).length ≤ 10 * n := h2
    have h4 : 10 * n < 10 ^ (k + 1) := by
      rw [pow_succ, mul_comm]
      omega
    have h5 : (Nat.digits 10 n).length < k + 1 := by
      by_contra hc
      have : 10 ^ (k + 1) ≤ 10 ^ (Nat.digits 10 n).length :=
        Nat.pow_le_pow_right (by norm_num) (by omega)
      omega
    omega

theorem foldl_digitsToNat_shift (B : List Char) :
    ∀ (a : Nat),
      List.foldl (fun x c => x * 10 + (c.toNat - 48)) a B =
        a * 10 ^ B.length + digitsToNat B := by
  induction B with
  | nil => intro a; simp [digitsToNat]
  | cons c B ih =>
      intro a
      rw [List.foldl_cons, ih (a * 10 + (c.toNat - 48))]
      have h2 : digitsToNat (c :: B) = (c.toNat - 48) * 10 ^ B.length + digitsToNat B := by
        rw [digitsToNat, List.foldl_cons, ih (0 * 10 + (c.toNat - 48))]
        ring
      rw [h2]
      simp only [List.length_cons]
      ring

theorem digitsToNat_append (A B : List Char) :
    digitsToNat (A ++ B) = digitsToNat A * 10 ^ B.length + digitsToNat B := by
  rw [digitsToNat, List.foldl_append, foldl_digitsToNat_shift]
  rfl

theorem digitsToNat_replicate_zero (k : Nat) :
    digitsToNat (List.replicate k '0') = 0 := by
  induction k with
  | zero => rfl
  | succ k ih =>
      rw [List.replicate_succ, digitsToNat, List.foldl_cons]
      show digitsToNat (List.replicate k '0') = 0
      exact ih

theorem pad6_length (b : Nat) (h : b < 10 ^ 6) : (pad6 b).length = 6 := by
  rw [pad6]
  have := natToString_length_le b 6 h
  simp only [List.length_append, List.length_replicate]
  omega

theorem pad6_all_digit (b : Nat) : ∀ c ∈ pad6 b, c.isDigit = true := by
  intro c hc
  rw [pad6] at hc
  rcases List.mem_append.mp hc with h | h
  · rw [List.eq_of_mem_replicate h]
    rfl
  · exact natToString_all_digit b c h

theorem digitsToNat_pad6 (b : Nat) : digitsToNat (pad6 b) = b := by
  rw [pad6, digitsToNat_append, digitsToNat_replicate_zero, digitsToNat_natToString]
  simp

/-! ### takeWhile / dropWhile over all-digit prefixes -/

theorem takeWhile_append_all (p : Char → Bool) (A B : List Char)
    (h : ∀ a ∈ A, p a = true) :
    (A ++ B).takeWhile p = A ++ B.takeWhile p := by
  induction A with
  | nil => simp
  | cons a A ih =>
      rw [List.cons_append, List.takeWhile_cons, if_pos (h a (by simp)), List.cons_append,
        ih (fun x hx => h x (by simp [hx]))]

theorem dropWhile_append_all (p : Char → Bool) (A B : List Char)
    (h : ∀ a ∈ A, p a = true) :
    (A ++ B).dropWhile p = B.dropWhile p := by
  induction A with
  | nil => simp
  | cons a A ih =>
      rw [List.cons_append, List.dropWhile_cons, if_pos (h a (by simp)),
        ih (fun x hx => h x (by simp [hx]))]

theorem takeWhile_all (p : Char → Bool) (A : List Char) (h : ∀ a ∈ A, p a = true) :
    A.takeWhile p = A := by
  have := takeWhile_append_all p A [] h
  simpa using this

theorem dropWhile_all (p : Char → Bool) (A : List Char) (h : ∀ a ∈ A, p a = true) :
    A.dropWhile p = [] := by
  have := dropWhile_append_all p A [] h
  simpa using this

/-- The facts about a decimal digit character that the scanning and
conversion proofs need: it is none of the parser's special characters. -/
theorem digit_char_facts (c : Char) (hd : c.isDigit = true) :
    ¬ c = '-' ∧ ¬ c = '+' ∧ ¬ c = '.' ∧ ¬ c = 'e' ∧ ¬ c = '"' ∧ ¬ c = ']' ∧
      ¬ c = '\x7d' ∧ ¬ c = ',' ∧ ¬ c = '\x7b' ∧ ¬ c = '[' ∧ ¬ c = 't' ∧ ¬ c = 'f' ∧
      ¬ c = 'n' ∧ isWhitespace c = false ∧ isNumChar c = true := by
  refine ⟨?_, ?_, ?_, ?_, ?_, ?_, ?_, ?_, ?_, ?_, ?_, ?_, ?_, ?_, ?_⟩
  all_goals first
    | (intro h; rw [h] at hd; exact absurd hd (by decide))
    | (rw [isWhitespace]
       have h0 : ('0' : Char) ≤ c := by
         rw [Char.isDigit] at hd
         simp at hd
         exact hd.1
       have h9 : c ≤ ('9' : Char) := by
         rw [Char.isDigit] at hd
         simp at hd
         exact hd.2
       have hlo : 48 ≤ c.toNat := h0
       have hhi : c.toNat ≤ 57 := h9
       simp only [Bool.or_eq_false_iff]
       refine ⟨⟨⟨?_, ?_⟩, ?_⟩, ?_⟩ <;>
       · rw [beq_eq_false_iff_ne]
         intro h
         rw [h] at hlo hhi
         simp at hlo hhi)
    | (rw [isNumChar, hd]
       rfl)

/-! ### stod on the strings the renderer produces -/

theorem stodSign_digits (tok : List Char) (h : ∀ c ∈ tok, c.isDigit = true)
    (hne : tok ≠ []) : stodSign tok = (1, tok) := by
  cases tok with
  | nil => exact absurd rfl hne
  | cons c cs =>
      have hf := digit_char_facts c (h c (by simp))
      rw [stodSign, if_neg hf.1, if_neg hf.2.1]

/-- `roundToDouble` is odd: negation commutes with rounding (the exponent
and significand computation only sees the magnitude). -/
theorem roundToDouble_neg (q : ℚ) : roundToDouble (-q) = - roundToDouble q := by
  by_cases h0 : q = 0
  · rw [h0]
    norm_num [roundToDouble]
  · have hn0 : ¬ (-q = 0) := neg_ne_zero.mpr h0
    simp only [roundToDouble, if_neg h0, if_neg hn0, Rat.neg_num, Int.natAbs_neg,
      Rat.neg_den, abs_neg]
    rcases lt_trichotomy q 0 with hq | hq | hq
    · rw [if_neg (show ¬ (-q < 0) by linarith), if_pos hq, neg_neg]
    · exact absurd hq h0
    · rw [if_pos (show -q < 0 by linarith), if_neg (show ¬ (q < 0) by linarith)]

theorem stod_all_digits (tok : List Char) (h : ∀ c ∈ tok, c.isDigit = true)
    (hne : tok ≠ []) (hbound : ((digitsToNat tok : ℚ)) < stodMax) :
    stod tok = Except.ok (roundToDouble (digitsToNat tok : ℚ)) := by
  rw [stod, stodSign_digits tok h hne]
  simp only
  rw [takeWhile_all Char.isDigit tok h, dropWhile_all Char.isDigit tok h]
  rw [show stodFrac [] = ([], []) from rfl]
  rw [if_neg (by simp [List.isEmpty_iff, hne])]
  rw [show stodExp [] = 0 from rfl]
  rw [if_pos (le_refl (0 : Int))]
  have habs : |(digitsToNat tok : ℚ)| = (digitsToNat tok : ℚ) :=
    abs_of_nonneg (by positivity)
  rw [if_neg (by
    simp only [List.length_nil, pow_zero, Nat.cast_one, div_one, mul_one, one_mul,
      List.append_nil, Int.toNat_zero]
    rw [habs]
    exact not_le.mpr hbound)]
  congr 2
  simp only [List.length_nil, pow_zero, Nat.cast_one, div_one, mul_one, one_mul,
    List.append_nil, Int.toNat_zero]

theorem stod_natToString (n : Nat) (hbound : ((n : ℚ)) < stodMax) :
    stod (natToString n) = Except.ok (roundToDouble (n : ℚ)) := by
  have h := stod_all_digits (natToString n) (natToString_all_digit n)
    (natToString_ne_nil n) (by rw [digitsToNat_natToString]; exact hbound)
  rw [h, digitsToNat_natToString]

theorem stodSign_head_digit (body : List Char) (hne : body ≠ [])
    (hh : (body.headD 'x').isDigit = true) : stodSign body = (1, body) := by
  cases body with
  | nil => exact absurd rfl hne
  | cons c cs =>
      have hf := digit_char_facts c (by simpa using hh)
      rw [stodSign, if_neg hf.1, if_neg hf.2.1]

/-- Prefixing a sign-free successfully converted token with `'-'` negates
the converted value. -/
theorem stod_cons_neg (body : List Char) (hne : body ≠ [])
    (hh : (body.headD 'x').isDigit = true) (q : ℚ)
    (h : stod body = Except.ok q) :
    stod ('-' :: body) = Except.ok (-q) := by
  rw [stod] at h ⊢
  rw [stodSign_head_digit body hne hh] at h
  rw [show stodSign ('-' :: body) = (-1, body) from rfl]
  simp only at h ⊢
  by_cases hev : (0 : Int) ≤ stodExp (stodFrac
      (body.dropWhile Char.isDigit)).2
  · rw [if_pos hev] at h ⊢
    split at h
    · exact absurd h (by simp)
    · next hg =>
        rw [if_neg hg]
        split at h
        · exact absurd h (by simp)
        · next hov =>
            have hq : roundToDouble ((1 : ℚ) * (((digitsToNat
                (body.takeWhile Char.isDigit ++ (stodFrac
                  (body.dropWhile Char.isDigit)).1) : ℕ) : ℚ) /
                  ((10 ^ (stodFrac (body.dropWhile Char.isDigit)).1.length : ℕ) : ℚ)) *
                ((10 ^ (stodExp (stodFrac (body.dropWhile Char.isDigit)).2).toNat : ℕ) : ℚ))
                = q := by
              have := h
              simp only [Except.ok.injEq] at this
              exact this
            rw [if_neg (by
              rw [show (-1 : ℚ) * (((digitsToNat
                  (body.takeWhile Char.isDigit ++ (stodFrac
                    (body.dropWhile Char.isDigit)).1) : ℕ) : ℚ) /
                    ((10 ^ (stodFrac (body.dropWhile Char.isDigit)).1.length : ℕ) : ℚ)) *
                  ((10 ^ (stodExp (stodFrac
                    (body.dropWhile Char.isDigit)).2).toNat : ℕ) : ℚ) =
                  -((1 : ℚ) * (((digitsToNat
                  (body.takeWhile Char.isDigit ++ (stodFrac
                    (body.dropWhile Char.isDigit)).1) : ℕ) : ℚ) /
                    ((10 ^ (stodFrac (body.dropWhile Char.isDigit)).1.length : ℕ) : ℚ)) *
                  ((10 ^ (stodExp (stodFrac
                    (body.dropWhile Char.isDigit)).2).toNat : ℕ) : ℚ)) from by ring,
                abs_neg]
              exact hov)]
            rw [show (-1 : ℚ) * (((digitsToNat
                (body.takeWhile Char.isDigit ++ (stodFrac
                  (body.dropWhile Char.isDigit)).1) : ℕ) : ℚ) /
                  ((10 ^ (stodFrac (body.dropWhile Char.isDigit)).1.length : ℕ) : ℚ)) *
                ((10 ^ (stodExp (stodFrac
                  (body.dropWhile Char.isDigit)).2).toNat : ℕ) : ℚ) =
                -((1 : ℚ) * (((digitsToNat
                (body.takeWhile Char.isDigit ++ (stodFrac
                  (body.dropWhile Char.isDigit)).1) : ℕ) : ℚ) /
                  ((10 ^ (stodFrac (body.dropWhile Char.isDigit)).1.length : ℕ) : ℚ)) *
                ((10 ^ (stodExp (stodFrac
                  (body.dropWhile Char.isDigit)).2).toNat : ℕ) : ℚ)) from by ring,
              roundToDouble_neg, hq]
  · rw [if_neg hev] at h ⊢
    split at h
    · exact absurd h (by simp)
    · next hg =>
        rw [if_neg hg]
        split at h
        · exact absurd h (by simp)
        · next hov =>
            have hq : roundToDouble ((1 : ℚ) * (((digitsToNat
                (body.takeWhile Char.isDigit ++ (stodFrac
                  (body.dropWhile Char.isDigit)).1) : ℕ) : ℚ) /
                  ((10 ^ (stodFrac (body.dropWhile Char.isDigit)).1.length : ℕ) : ℚ)) /
                ((10 ^ (- stodExp (stodFrac
                  (body.dropWhile Char.isDigit)).2).toNat : ℕ) : ℚ))
                = q := by
              have := h
              simp only [Except.ok.injEq] at this
              exact this
            rw [if_neg (by
              rw [show (-1 : ℚ) * (((digitsToNat
                  (body.takeWhile Char.isDigit ++ (stodFrac
                    (body.dropWhile Char.isDigit)).1) : ℕ) : ℚ) /
                    ((10 ^ (stodFrac (body.dropWhile Char.isDigit)).1.length : ℕ) : ℚ)) /
                  ((10 ^ (- stodExp (stodFrac
                    (body.dropWhile Char.isDigit)).2).toNat : ℕ) : ℚ) =
                  -((1 : ℚ) * (((digitsToNat
                  (body.takeWhile Char.isDigit ++ (stodFrac
                    (body.dropWhile Char.isDigit)).1) : ℕ) : ℚ) /
                    ((10 ^ (stodFrac (body.dropWhile Char.isDigit)).1.length : ℕ) : ℚ)) /
                  ((10 ^ (- stodExp (stodFrac
                    (body.dropWhile Char.isDigit)).2).toNat : ℕ) : ℚ)) from by ring,
                abs_neg]
              exact hov)]
            rw [show (-1 : ℚ) * (((digitsToNat
                (body.takeWhile Char.isDigit ++ (stodFrac
                  (body.dropWhile Char.isDigit)).1) : ℕ) : ℚ) /
                  ((10 ^ (stodFrac (body.dropWhile Char.isDigit)).1.length : ℕ) : ℚ)) /
                ((10 ^ (- stodExp (stodFrac
                  (body.dropWhile Char.isDigit)).2).toNat : ℕ) : ℚ) =
                -((1 : ℚ) * (((digitsToNat
                (body.takeWhile Char.isDigit ++ (stodFrac
                  (body.dropWhile Char.isDigit)).1) : ℕ) : ℚ) /
                  ((10 ^ (stodFrac (body.dropWhile Char.isDigit)).1.length : ℕ) : ℚ)) /
                ((10 ^ (- stodExp (stodFrac
                  (body.dropWhile Char.isDigit)).2).toNat : ℕ) : ℚ)) from by ring,
              roundToDouble_neg, hq]

theorem stod_intToString (i : Int) (hbound : |(i : ℚ)| < stodMax) :
    stod (intToString i) = Except.ok (roundToDouble (i : ℚ)) := by
  have habs : ((i.natAbs : ℚ)) = |(i : ℚ)| := by
    rw [Int.cast_natAbs]
    exact Int.cast_abs
  by_cases hi : i < 0
  · rw [intToString, if_pos hi]
    have hq : (i : ℚ) < 0 := by exact_mod_cast hi
    have hstep := stod_natToString i.natAbs (by rw [habs]; exact hbound)
    have h2 := stod_cons_neg (natToString i.natAbs) (natToString_ne_nil _)
      (by
        rcases hhead : natToString i.natAbs with _ | ⟨c, cs⟩
        · exact absurd hhead (natToString_ne_nil _)
        · have := natToString_all_digit i.natAbs c (by rw [hhead]; simp)
          simpa using this)
      _ hstep
    rw [h2]
    congr 1
    rw [← roundToDouble_neg]
    congr 1
    rw [habs, abs_of_neg hq]
    ring
  · rw [intToString, if_neg hi]
    have hq : (0 : ℚ) ≤ (i : ℚ) := by exact_mod_cast not_lt.mp hi
    rw [stod_natToString i.natAbs (by rw [habs]; exact hbound)]
    congr 2
    rw [habs, abs_of_nonneg hq]

/-- stod on `digits.digits`: the exact decimal value. -/
theorem stod_digits_dot_digits (A B : List Char)
    (hA : ∀ c ∈ A, c.isDigit = true) (hAne : A ≠ [])
    (hB : ∀ c ∈ B, c.isDigit = true)
    (hbound : ((digitsToNat (A ++ B) : ℚ)) / ((10 ^ B.length : ℕ) : ℚ) < stodMax) :
    stod (A ++ '.' :: B) =
      Except.ok (roundToDouble ((digitsToNat (A ++ B) : ℚ) / ((10 ^ B.length : ℕ) : ℚ))) := by
  have hsgn : stodSign (A ++ '.' :: B) = (1, A ++ '.' :: B) := by
    apply stodSign_head_digit _ (by simp)
    rcases hhead : A with _ | ⟨c, cs⟩
    · exact absurd hhead hAne
    · have := hA c (by rw [hhead]; simp)
      simpa using this
  rw [stod, hsgn]
  simp only
  rw [takeWhile_append_all Char.isDigit A _ hA, dropWhile_append_all Char.isDigit A _ hA]
  rw [show List.takeWhile Char.isDigit ('.' :: B) = [] from by
    rw [List.takeWhile_cons, if_neg (by decide)]]
  rw [show List.dropWhile Char.isDigit ('.' :: B) = '.' :: B from by
    rw [List.dropWhile_cons, if_neg (by decide)]]
  rw [show stodFrac ('.' :: B) = (B.takeWhile Char.isDigit, B.dropWhile Char.isDigit)
    from by rw [stodFrac, if_pos rfl]]
  simp only
  rw [takeWhile_all Char.isDigit B hB, dropWhile_all Char.isDigit B hB]
  rw [if_neg (by
    simp only [List.append_nil, List.isEmpty_iff]
    intro hcon
    exact hAne hcon.1)]
  rw [show stodExp [] = 0 from rfl]
  simp only [List.append_nil]
  rw [if_pos (le_refl (0 : Int))]
  have hnn : (0 : ℚ) ≤ ((digitsToNat (A ++ B) : ℚ)) / ((10 ^ B.length : ℕ) : ℚ) := by
    positivity
  rw [if_neg (by
    simp only [Int.toNat_zero, pow_zero, Nat.cast_one, mul_one, one_mul]
    rw [abs_of_nonneg hnn]
    exact not_le.mpr hbound)]
  congr 2
  simp only [Int.toNat_zero, pow_zero, Nat.cast_one, mul_one, one_mul]

/-- The integrality test of the number renderer in terms of the reduced
denominator: `num - (long)num == 0` holds exactly when the value is an
integer. -/
theorem render_number_eq (q : ℚ) (ind d : Nat) :
    (Value.vNumber q).getRepresentation ind d =
      if q.den = 1 then intToString q.num else fixed6 q := by
  rw [Value.getRepresentation]
  by_cases h : q.den = 1
  · have hnum : (q.num : ℚ) = q := Rat.coe_int_num_of_den_eq_one h
    have htr : ratTrunc q = q.num := by
      rw [ratTrunc, h]
      exact Int.tdiv_one q.num
    rw [if_pos h, htr, if_pos (by rw [hnum]; ring)]
  · rw [if_neg h, if_neg (by
      intro h0
      have hq : q = (ratTrunc q : ℚ) := by linarith [sub_eq_zero.mp h0]
      have : q.den = 1 := by
        rw [hq]
        exact Rat.den_intCast _
      exact h this)]

/-- stod is a left inverse of the six-decimal fixed-point rendering on
exact multiples of 10^-6. -/
theorem stod_fixed6 (q : ℚ) (hden6 : (q * 1000000).den = 1)
    (hbound : |q| < ((2 ^ 63 : ℕ) : ℚ)) :
    stod (fixed6 q) = Except.ok (roundToDouble q) := by
  have hM : ((q * 1000000).num : ℚ) = q * 1000000 :=
    Rat.coe_int_num_of_den_eq_one hden6
  have habs : |q| * 1000000 = ((|(q * 1000000).num| : ℤ) : ℚ) := by
    rw [Int.cast_abs, hM, abs_mul]
    norm_num
  have hfloor : (⌊|q| * 1000000 + 1 / 2⌋ : ℤ) = |(q * 1000000).num| := by
    rw [habs, add_comm, Int.floor_add_int]
    norm_num
  have hmn : ((⌊|q| * 1000000 + 1 / 2⌋ : ℤ).toNat : ℚ) = |q| * 1000000 := by
    rw [hfloor, habs]
    rw [show (((|(q * 1000000).num| : ℤ).toNat : ℕ) : ℚ) =
        ((((|(q * 1000000).num| : ℤ).toNat : ℕ) : ℤ) : ℚ) from by push_cast; ring]
    rw [Int.toNat_of_nonneg (abs_nonneg _)]
  set mn : Nat := (⌊|q| * 1000000 + 1 / 2⌋ : ℤ).toNat with hmndef
  have hb : mn % 1000000 < 10 ^ 6 := by
    have : mn % 1000000 < 1000000 := Nat.mod_lt _ (by norm_num)
    omega
  have hsplit : mn / 1000000 * 10 ^ (pad6 (mn % 1000000)).length + mn % 1000000 = mn := by
    rw [pad6_length _ hb]
    have h10 : (10 : ℕ) ^ 6 = 1000000 := by norm_num
    rw [h10]
    omega
  have hdig : digitsToNat (natToString (mn / 1000000) ++ pad6 (mn % 1000000)) = mn := by
    rw [digitsToNat_append, digitsToNat_natToString, digitsToNat_pad6, hsplit]
  have hlen6 : (pad6 (mn % 1000000)).length = 6 := pad6_length _ hb
  have hvalue : ((digitsToNat (natToString (mn / 1000000) ++ pad6 (mn % 1000000)) : ℚ)) /
      ((10 ^ (pad6 (mn % 1000000)).length : ℕ) : ℚ) = |q| := by
    rw [hdig, hlen6]
    rw [show ((10 ^ 6 : ℕ) : ℚ) = 1000000 from by norm_num]
    rw [hmn]
    field_simp
  have hboundv : ((digitsToNat (natToString (mn / 1000000) ++ pad6 (mn % 1000000)) : ℚ)) /
      ((10 ^ (pad6 (mn % 1000000)).length : ℕ) : ℚ) < stodMax := by
    rw [hvalue]
    calc |q| < ((2 ^ 63 : ℕ) : ℚ) := hbound
      _ ≤ stodMax := by
          rw [stodMax]
          exact_mod_cast Nat.pow_le_pow_right (by norm_num) (by norm_num)
  have hcore := stod_digits_dot_digits (natToString (mn / 1000000)) (pad6 (mn % 1000000))
    (natToString_all_digit _) (natToString_ne_nil _) (pad6_all_digit _) hboundv
  by_cases hq : q < 0
  · simp only [fixed6]
    rw [if_pos hq]
    simp only [← hmndef, List.singleton_append]
    have h2 := stod_cons_neg
      (natToString (mn / 1000000) ++ '.' :: pad6 (mn % 1000000))
      (by simp [natToString_ne_nil])
      (by
        rcases hhead : natToString (mn / 1000000) with _ | ⟨c, cs⟩
        · exact absurd hhead (natToString_ne_nil _)
        · have := natToString_all_digit (mn / 1000000) c (by rw [hhead]; simp)
          simpa using this)
      _ hcore
    rw [List.cons_append, h2]
    exact congrArg Except.ok (by
      rw [← roundToDouble_neg]
      exact congrArg roundToDouble (by rw [hvalue, abs_of_neg hq]; ring))
  · simp only [fixed6]
    rw [if_neg hq]
    simp only [← hmndef, List.nil_append]
    rw [hcore]
    exact congrArg Except.ok
      (congrArg roundToDouble (by rw [hvalue, abs_of_nonneg (not_lt.mp hq)]))

/-- stod undoes the number renderer on the Good payloads: the rendered
decimal is exact, and rounding it to double is the identity precisely on
the double-representable payloads. -/
theorem stod_render_number (q : ℚ) (hden6 : (q * 1000000).den = 1)
    (hbound : |q| < ((2 ^ 63 : ℕ) : ℚ)) (hrnd : roundToDouble q = q) (ind d : Nat) :
    stod ((Value.vNumber q).getRepresentation ind d) = Except.ok q := by
  rw [render_number_eq]
  by_cases h : q.den = 1
  · rw [if_pos h]
    have hnum : (q.num : ℚ) = q := Rat.coe_int_num_of_den_eq_one h
    rw [stod_intToString q.num (by
      rw [hnum]
      calc |q| < ((2 ^ 63 : ℕ) : ℚ) := hbound
        _ ≤ stodMax := by
            rw [stodMax]
            exact_mod_cast Nat.pow_le_pow_right (by norm_num) (by norm_num))]
    rw [hnum, hrnd]
  · rw [if_neg h]
    rw [stod_fixed6 q hden6 hbound, hrnd]

/-! ### Character facts about rendered numbers, and the number scan -/

theorem count_eq_zero_of_all_digit (x : Char) (hx : x.isDigit = false)
    (l : List Char) (h : ∀ c ∈ l, c.isDigit = true) : l.count x = 0 := by
  rw [List.count_eq_zero]
  intro hmem
  rw [h x hmem] at hx
  exact absurd hx (by simp)

theorem render_number_scan_facts (q : ℚ) (ind d : Nat) :
    (∀ c ∈ (Value.vNumber q).getRepresentation ind d, isNumChar c = true) ∧
    ((Value.vNumber q).getRepresentation ind d).count '.' ≤ 1 ∧
    ((Value.vNumber q).getRepresentation ind d).count 'e' = 0 ∧
    (Value.vNumber q).getRepresentation ind d ≠ [] ∧
    (((Value.vNumber q).getRepresentation ind d).headD 'x' = '-' ∨
      (((Value.vNumber q).getRepresentation ind d).headD 'x').isDigit = true) := by
  rw [render_number_eq]
  have hnts : ∀ (n : Nat), (∀ c ∈ natToString n, isNumChar c = true) ∧
      (natToString n).count '.' = 0 ∧ (natToString n).count 'e' = 0 := by
    intro n
    refine ⟨fun c hc => ((digit_char_facts c (natToString_all_digit n c hc)).2.2.2.2.2.2.2.2.2.2.2.2.2.2), ?_, ?_⟩
    · exact count_eq_zero_of_all_digit '.' (by decide) _ (natToString_all_digit n)
    · exact count_eq_zero_of_all_digit 'e' (by decide) _ (natToString_all_digit n)
  have hpad : ∀ (b : Nat), (∀ c ∈ pad6 b, isNumChar c = true) ∧
      (pad6 b).count '.' = 0 ∧ (pad6 b).count 'e' = 0 := by
    intro b
    refine ⟨fun c hc => ((digit_char_facts c (pad6_all_digit b c hc)).2.2.2.2.2.2.2.2.2.2.2.2.2.2), ?_, ?_⟩
    · exact count_eq_zero_of_all_digit '.' (by decide) _ (pad6_all_digit b)
    · exact count_eq_zero_of_all_digit 'e' (by decide) _ (pad6_all_digit b)
  have hntshead : ∀ (n : Nat), ((natToString n).headD 'x').isDigit = true := by
    intro n
    rcases hh : natToString n with _ | ⟨c, cs⟩
    · exact absurd hh (natToString_ne_nil n)
    · have := natToString_all_digit n c (by rw [hh]; simp)
      simpa using this
  by_cases h : q.den = 1
  · rw [if_pos h, intToString]
    by_cases hneg : q.num < 0
    · rw [if_pos hneg]
      refine ⟨?_, ?_, ?_, by simp, by simp⟩
      · intro c hc
        rcases List.mem_cons.mp hc with h1 | h1
        · rw [h1]
          rfl
        · exact (hnts _).1 c h1
      · simp [List.count_cons, (hnts q.num.natAbs).2.1]
      · simp [List.count_cons, (hnts q.num.natAbs).2.2]
    · rw [if_neg hneg]
      exact ⟨(hnts _).1, by simp [(hnts _).2.1], by rw [(hnts _).2.2],
        natToString_ne_nil _, Or.inr (hntshead _)⟩
  · rw [if_neg h]
    simp only [fixed6]
    by_cases hneg : q < 0
    · rw [if_pos hneg]
      simp only [List.singleton_append]
      constructor
      · intro c hc
        rcases List.mem_cons.mp hc with h1 | h1
        · rw [h1]
          rfl
        · rcases List.mem_append.mp h1 with h2 | h2
          · exact (hnts _).1 c h2
          · rcases List.mem_cons.mp h2 with h3 | h3
            · rw [h3]
              rfl
            · exact (hpad _).1 c h3
      · refine ⟨?_, ?_, by simp, by simp⟩
        · simp [List.count_cons, List.count_append, (hnts _).2.1, (hpad _).2.1]
        · simp [List.count_cons, List.count_append, (hnts _).2.2, (hpad _).2.2]
    · rw [if_neg hneg]
      simp only [List.nil_append]
      constructor
      · intro c hc
        rcases List.mem_append.mp hc with h2 | h2
        · exact (hnts _).1 c h2
        · rcases List.mem_cons.mp h2 with h3 | h3
          · rw [h3]
            rfl
          · exact (hpad _).1 c h3
      · refine ⟨?_, ?_, by simp [natToString_ne_nil], ?_⟩
        · simp [List.count_cons, List.count_append, (hnts _).2.1, (hpad _).2.1]
        · simp [List.count_cons, List.count_append, (hnts _).2.2, (hpad _).2.2]
        · right
          rcases hh : natToString ((⌊|q| * 1000000 + 1 / 2⌋ : ℤ).toNat / 1000000)
            with _ | ⟨c, cs⟩
          · exact absurd hh (natToString_ne_nil _)
          · have := natToString_all_digit _ c (by rw [hh]; simp)
            simp [hh]
            simpa using this

/-- The `parseNumber` scanning loop on a token that contains no duplicate
`'.'`/`'e'` (relative to the incoming flags) followed by a boundary that
stops the scan: consumes exactly the token, reports nothing. -/
theorem scanNumberAux_spec :
    ∀ (tok : List Char) (g : Nat) (fp ex : Bool) (s : Parser) (rest : List Char),
      s.content.drop s.currIdx = tok ++ rest →
      s.currChar = charAt s.content s.currIdx →
      (∀ c ∈ tok, isNumChar c = true) →
      (if fp then 1 else 0) + tok.count '.' ≤ 1 →
      (if ex then 1 else 0) + tok.count 'e' ≤ 1 →
      (rest = [] ∨ isNumChar (rest.headD 'x') = false) →
      tok.length ≤ g →
      scanNumberAux g fp ex s = (tok.length, { s with
        currIdx := s.currIdx + tok.length,
        currChar := charAt s.content (s.currIdx + tok.length) }) := by
  intro tok
  induction tok with
  | nil =>
      intro g fp ex s rest hd hc _ _ _ hrest _
      have hs : { s with
          currIdx := s.currIdx + ([] : List Char).length,
          currChar := charAt s.content (s.currIdx + ([] : List Char).length) } = s := by
        simp [← hc]
      rw [hs]
      simp only [List.nil_append] at hd
      cases g with
      | zero => rfl
      | succ g =>
          rcases hrest with hrest | hrest
          · rw [hrest] at hd
            rw [scanNumberAux, if_pos (isEOF_true_of_le s (List.drop_eq_nil_iff.mp hd))]
            rfl
          · cases rest with
            | nil =>
                rw [scanNumberAux,
                  if_pos (isEOF_true_of_le s (List.drop_eq_nil_iff.mp hd))]
                rfl
            | cons r rs =>
                have hlt : s.currIdx < s.content.length :=
                  drop_ne_nil_lt _ _ (by simp [hd])
                have hcc : s.currChar = r := by
                  rw [hc, charAt_of_drop_cons _ _ _ _ hd]
                rw [scanNumberAux, if_neg (by simp [isEOF_false_of_lt s hlt]),
                  if_pos (by rw [hcc]; simpa using hrest)]
                rfl
  | cons c tok ih =>
      intro g fp ex s rest hd hc hnum hdot hexp hrest hg
      cases g with
      | zero => simp at hg
      | succ g =>
          rw [List.cons_append] at hd
          have hlt : s.currIdx < s.content.length := drop_ne_nil_lt _ _ (by simp [hd])
          have hcc : s.currChar = c := by
            rw [hc, charAt_of_drop_cons _ _ _ _ hd]
          have hcnum : isNumChar c = true := hnum c (by simp)
          have hadv := advance_sync s hlt hc
          have hd2 : s.advance.content.drop s.advance.currIdx = tok ++ rest := by
            rw [hadv]
            exact drop_succ_of_drop_cons _ _ _ _ hd
          have hdotc : c = '.' → fp = false ∧ tok.count '.' = 0 := by
            intro hcd
            subst hcd
            rw [List.count_cons_self] at hdot
            constructor
            · by_contra hfp
              rw [Bool.not_eq_false] at hfp
              rw [hfp, if_pos rfl] at hdot
              omega
            · split at hdot <;> omega
          have hexpc : c = 'e' → ex = false ∧ tok.count 'e' = 0 := by
            intro hcd
            subst hcd
            rw [List.count_cons_self] at hexp
            constructor
            · by_contra hex
              rw [Bool.not_eq_false] at hex
              rw [hex, if_pos rfl] at hexp
              omega
            · split at hexp <;> omega
          have hdot2 : (if fp || c = '.' then 1 else 0) + tok.count '.' ≤ 1 := by
            by_cases hcd : c = '.'
            · obtain ⟨h1, h2⟩ := hdotc hcd
              simp [h1, h2, hcd]
            · rw [List.count_cons_of_ne (fun h => hcd h.symm)] at hdot
              simpa [hcd] using hdot
          have hexp2 : (if ex || c = 'e' then 1 else 0) + tok.count 'e' ≤ 1 := by
            by_cases hcd : c = 'e'
            · obtain ⟨h1, h2⟩ := hexpc hcd
              simp [h1, h2, hcd]
            · rw [List.count_cons_of_ne (fun h => hcd h.symm)] at hexp
              simpa [hcd] using hexp
          have hrec := ih g (fp || c = '.') (ex || c = 'e') s.advance rest
            hd2 (by rw [hadv]) (fun x hx => hnum x (by simp [hx])) hdot2 hexp2 hrest
            (by simpa using hg)
          have hnd : ¬ (s.currChar = '.' ∧ fp = true) := by
            intro hcon
            rw [hcc] at hcon
            obtain ⟨h1, _⟩ := hdotc hcon.1
            rw [h1] at hcon
            exact absurd hcon.2 (by simp)
          have hne2 : ¬ (s.currChar = 'e' ∧ ex = true) := by
            intro hcon
            rw [hcc] at hcon
            obtain ⟨h1, _⟩ := hexpc hcon.1
            rw [h1] at hcon
            exact absurd hcon.2 (by simp)
          rw [scanNumberAux, if_neg (by simp [isEOF_false_of_lt s hlt]),
            if_neg (by rw [hcc]; simp [hcnum]), if_neg hnd, if_neg hne2]
          rw [show (fp || s.currChar = '.') = (fp || c = '.') from by rw [hcc],
            show (ex || s.currChar = 'e') = (ex || c = 'e') from by rw [hcc]]
          rw [hrec, hadv]
          have harith : s.currIdx + 1 + tok.length = s.currIdx + (tok.length + 1) := by
            omega
          simp [harith]

theorem nextOk_not_numchar (rest : List Char) (h : nextOk rest = true) :
    rest = [] ∨ isNumChar (rest.headD 'x') = false := by
  cases rest with
  | nil => exact Or.inl rfl
  | cons c cs =>
      right
      rw [nextOk] at h
      simp at h
      rcases h with (h | h) | h <;> rw [h] <;> rfl

/-- `parseNumber` on the compact rendering of a Good Number payload:
consumes exactly the rendered token and returns the payload, with no
diagnostics and no error. -/
theorem parseNumber_on_render (q : ℚ) (hden6 : (q * 1000000).den = 1)
    (hbound : |q| < ((2 ^ 63 : ℕ) : ℚ)) (hrnd : roundToDouble q = q)
    (d : Nat) (s : Parser) (rest : List Char)
    (hd : s.content.drop s.currIdx = (Value.vNumber q).getRepresentation 0 d ++ rest)
    (hc : s.currChar = charAt s.content s.currIdx)
    (hrest : nextOk rest = true) :
    s.parseNumber = (Value.vNumber q, { s with
      currIdx := s.currIdx + ((Value.vNumber q).getRepresentation 0 d).length,
      currChar := charAt s.content
        (s.currIdx + ((Value.vNumber q).getRepresentation 0 d).length) }) := by
  obtain ⟨hall, hdot, hexp, hne, _⟩ := render_number_scan_facts q 0 d
  have hlen : ((Value.vNumber q).getRepresentation 0 d).length ≤
      s.content.length - s.currIdx := by
    have := congrArg List.length hd
    simp [List.length_drop] at this
    omega
  have hscan := scanNumberAux_spec ((Value.vNumber q).getRepresentation 0 d)
    (s.content.length - s.currIdx) false false s rest hd hc hall
    (by simpa using hdot) (by simp [hexp]) (nextOk_not_numchar rest hrest) hlen
  rw [Parser.parseNumber]
  simp only
  rw [hscan]
  simp only
  have hsub : substr s.content s.currIdx
      ((Value.vNumber q).getRepresentation 0 d).length =
      (Value.vNumber q).getRepresentation 0 d := by
    rw [substr, hd, ← List.take_left ((Value.vNumber q).getRepresentation 0 d) rest]
    simp
  rw [hsub, stod_render_number q hden6 hbound hrnd 0 d]

/-! ### Structural helpers for the round-trip development -/

theorem drop_shift (l A B : List Char) (i : Nat) (hd : l.drop i = A ++ B) :
    l.drop (i + A.length) = B := by
  calc l.drop (i + A.length) = (l.drop i).drop A.length := by
        rw [List.drop_drop, Nat.add_comm]
    _ = B := by rw [hd, List.drop_left]

/-- The counting loop of `validateIdentifier` with enough input left:
consumes exactly `n` characters and stays synced. -/
theorem validateLoop_spec :
    ∀ (n : Nat) (s : Parser),
      n ≤ s.content.length - s.currIdx →
      s.currChar = charAt s.content s.currIdx →
      validateLoop n s = (n, { s with
        currIdx := s.currIdx + n,
        currChar := charAt s.content (s.currIdx + n) }) := by
  intro n
  induction n with
  | zero =>
      intro s _ hc
      rw [validateLoop]
      simp [← hc]
  | succ m ih =>
      intro s hn hc
      have hlt : s.currIdx < s.content.length := by omega
      have hadv := advance_sync s hlt hc
      have hrec := ih
        { s with currIdx := s.currIdx + 1, currChar := charAt s.content (s.currIdx + 1) }
        (by show m ≤ s.content.length - (s.currIdx + 1); omega) rfl
      simp only at hrec
      rw [validateLoop, if_neg (by simp [isEOF_false_of_lt s hlt]), hadv, hrec]
      have harith : s.currIdx + 1 + m = s.currIdx + (m + 1) := by omega
      simp [harith]

/-- `validateIdentifier` on input that does start with the identifier:
returns `true` and consumes exactly the identifier. -/
theorem validateIdentifier_on (id : List Char) (s : Parser) (rest : List Char)
    (hd : s.content.drop s.currIdx = id ++ rest)
    (hc : s.currChar = charAt s.content s.currIdx) :
    s.validateIdentifier id = (true, { s with
      currIdx := s.currIdx + id.length,
      currChar := charAt s.content (s.currIdx + id.length) }) := by
  have hlen : id.length ≤ s.content.length - s.currIdx := by
    have := congrArg List.length hd
    simp [List.length_drop] at this
    omega
  have hloop := validateLoop_spec id.length s hlen hc
  rw [Parser.validateIdentifier]
  rw [hloop]
  simp only [Prod.mk.injEq]
  constructor
  · have hsub : substr s.content s.currIdx id.length = id := by
      rw [substr, hd, ← List.take_left id rest]
      simp
    simp [hsub]
  · trivial

/-- After construction on nonempty input the `currChar` latch is synced. -/
theorem init_sync (content : List Char) (h : content ≠ []) :
    (Parser.init content).currChar = charAt content 0 := by
  have hlt : 0 < content.length := List.length_pos.mpr h
  show (if 0 < content.length then content.getD 0 '\x00' else '\x00') = _
  rw [if_pos hlt, charAt, if_pos hlt]
  cases content with
  | nil => simp at h
  | cons c t => rfl

/-- Map-insertion of a key not yet bound is an append (the only way the
round-trip parses use `obj[name] = element`). -/
theorem objInsert_of_not_mem (l : List (List Char × Value)) (k : List Char) (v : Value)
    (h : k ∉ l.map Prod.fst) : objInsert l k v = l ++ [(k, v)] := by
  induction l with
  | nil => rfl
  | cons kv t ih =>
      have h1 : ¬ kv.1 = k := by
        intro he
        apply h
        rw [List.map_cons, he]
        exact List.mem_cons_self _ _
      have h2 : k ∉ t.map Prod.fst := by
        intro hm
        apply h
        rw [List.map_cons]
        exact List.mem_cons_of_mem _ hm
      rw [objInsert, if_neg h1, ih h2]
      rfl

theorem goodElems_cons (e : Value) (es : List Value) (hg : goodElems (e :: es) = true) :
    goodValue e = true ∧ goodElems es = true := by
  rw [goodElems, Bool.and_eq_true] at hg
  exact hg

theorem goodElems_mem (es : List Value) (hg : goodElems es = true) :
    ∀ e ∈ es, goodValue e = true := by
  induction es with
  | nil =>
      intro e he
      simp at he
  | cons a t ih =>
      intro e he
      rcases List.mem_cons.mp he with h | h
      · rw [h]
        exact (goodElems_cons a t hg).1
      · exact ih (goodElems_cons a t hg).2 e h

theorem goodFields_cons (kv : List Char × Value) (fs : List (List Char × Value))
    (hg : goodFields (kv :: fs) = true) :
    '"' ∉ kv.1 ∧ goodValue kv.2 = true ∧ goodFields fs = true := by
  rw [goodFields] at hg
  simp only [Bool.and_eq_true, decide_eq_true_eq] at hg
  exact ⟨hg.1.1.1.1, hg.1.2, hg.2⟩

theorem goodFields_mem (fs : List (List Char × Value)) (hg : goodFields fs = true) :
    ∀ kv ∈ fs, goodValue kv.2 = true := by
  induction fs with
  | nil =>
      intro kv hkv
      simp at hkv
  | cons a t ih =>
      intro kv hkv
      rcases List.mem_cons.mp hkv with h | h
      · rw [h]
        exact (goodFields_cons a t hg).2.1
      · exact ih (goodFields_cons a t hg).2.2 kv h

/-! ### The compact (indent 0) rendering shapes -/

theorem render_array_zero (es : List Value) (d : Nat) :
    Value.getRepresentation (Value.vArray es) 0 d =
      '[' :: (renderArrayItems es 0 d ++ [']']) := by
  show '[' :: (renderArrayItems es 0 d ++ (if 0 < 0 then ['\n'] else []) ++
    List.replicate (0 * d) ' ' ++ [']']) = _
  simp

theorem render_object_zero (fs : List (List Char × Value)) (d : Nat) :
    Value.getRepresentation (Value.vObject fs) 0 d =
      '\x7b' :: (renderObjectItems fs 0 d ++ ['\x7d']) := by
  show '\x7b' :: (renderObjectItems fs 0 d ++ (if 0 < 0 then ['\n'] else []) ++
    List.replicate (0 * d) ' ' ++ ['\x7d']) = _
  simp

theorem renderArrayItems_zero_single (e : Value) (d : Nat) :
    renderArrayItems [e] 0 d = e.getRepresentation 0 (d + 1) := by
  show (if 0 < 0 then '\n' :: List.replicate (0 * (d + 1)) ' ' else []) ++
    e.getRepresentation 0 (d + 1) = _
  simp

theorem renderArrayItems_zero_cons2 (e e2 : Value) (rest : List Value) (d : Nat) :
    renderArrayItems (e :: e2 :: rest) 0 d =
      e.getRepresentation 0 (d + 1) ++ ',' :: renderArrayItems (e2 :: rest) 0 d := by
  show (if 0 < 0 then '\n' :: List.replicate (0 * (d + 1)) ' ' else []) ++
    e.getRepresentation 0 (d + 1) ++ [','] ++ renderArrayItems (e2 :: rest) 0 d = _
  simp

theorem renderObjectItems_zero_single (kv : List Char × Value) (d : Nat) :
    renderObjectItems [kv] 0 d =
      '"' :: (kv.1 ++ '"' :: ':' :: kv.2.getRepresentation 0 (d + 1)) := by
  show (if 0 < 0 then '\n' :: List.replicate (0 * (d + 1)) ' ' else []) ++
    '"' :: kv.1 ++ "\":".data ++ (if 0 < 0 then [' '] else []) ++
    kv.2.getRepresentation 0 (d + 1) = _
  simp

theorem renderObjectItems_zero_cons2 (kv kv2 : List Char × Value)
    (rest : List (List Char × Value)) (d : Nat) :
    renderObjectItems (kv :: kv2 :: rest) 0 d =
      '"' :: (kv.1 ++ '"' :: ':' ::
        (kv.2.getRepresentation 0 (d + 1) ++ ',' :: renderObjectItems (kv2 :: rest) 0 d)) := by
  show (if 0 < 0 then '\n' :: List.replicate (0 * (d + 1)) ' ' else []) ++
    '"' :: kv.1 ++ "\":".data ++ (if 0 < 0 then [' '] else []) ++
    kv.2.getRepresentation 0 (d + 1) ++ [','] ++ renderObjectItems (kv2 :: rest) 0 d = _
  simp

theorem head_class_of (c : Char) (l : List Char) (h : l.headD 'x' = c)
    (hw : isWhitespace c = false) (h1 : ¬ c = ']') (h2 : ¬ c = '\x7d') (h3 : ¬ c = ',') :
    isWhitespace (l.headD 'x') = false ∧ ¬ l.headD 'x' = ']' ∧
      ¬ l.headD 'x' = '\x7d' ∧ ¬ l.headD 'x' = ',' := by
  rw [h]
  exact ⟨hw, h1, h2, h3⟩

/-- The compact rendering of a Good value is nonempty and starts with a
character that is not whitespace, not a container closer and not a comma —
so the whitespace-skips and loop-exit tests of the parser never fire at
the start of a rendered element. -/
theorem render_head_class (v : Value) (hg : goodValue v = true) (d : Nat) :
    v.getRepresentation 0 d ≠ [] ∧
    isWhitespace ((v.getRepresentation 0 d).headD 'x') = false ∧
    ¬ (v.getRepresentation 0 d).headD 'x' = ']' ∧
    ¬ (v.getRepresentation 0 d).headD 'x' = '\x7d' ∧
    ¬ (v.getRepresentation 0 d).headD 'x' = ',' := by
  cases v with
  | vObject fs =>
      rw [render_object_zero]
      exact ⟨by simp, head_class_of '\x7b' _ rfl (by decide) (by decide) (by decide) (by decide)⟩
  | vArray es =>
      rw [render_array_zero]
      exact ⟨by simp, head_class_of '[' _ rfl (by decide) (by decide) (by decide) (by decide)⟩
  | vString str =>
      exact ⟨by show '"' :: _ ≠ []; simp,
        head_class_of '"' _ rfl (by decide) (by decide) (by decide) (by decide)⟩
  | vNumber q =>
      obtain ⟨-, -, -, hne, hhead⟩ := render_number_scan_facts q 0 d
      refine ⟨hne, ?_⟩
      rcases hhead with hhead | hhead
      · exact head_class_of '-' _ hhead (by decide) (by decide) (by decide) (by decide)
      · obtain ⟨-, -, -, -, -, h6, h7, h8, -⟩ :=
          digit_char_facts _ hhead
        refine ⟨?_, h6, h7, h8⟩
        exact (digit_char_facts _ hhead).2.2.2.2.2.2.2.2.2.2.2.2.2.1
  | vBoolean b =>
      cases b with
      | true =>
          exact ⟨by show 't' :: _ ≠ []; simp,
            head_class_of 't' _ rfl (by decide) (by decide) (by decide) (by decide)⟩
      | false =>
          exact ⟨by show 'f' :: _ ≠ []; simp,
            head_class_of 'f' _ rfl (by decide) (by decide) (by decide) (by decide)⟩
  | vNull =>
      exact ⟨by show 'n' :: _ ≠ []; simp,
        head_class_of 'n' _ rfl (by decide) (by decide) (by decide) (by decide)⟩
  | vUnknown => exact absurd hg (by decide)

/-- The character under a synced cursor standing at the start of a
rendered Good value is the rendering's head. -/
theorem charAt_render_head (content : List Char) (i dd : Nat) (v : Value) (t : List Char)
    (hd : content.drop i = v.getRepresentation 0 dd ++ t) (hg : goodValue v = true) :
    charAt content i = (v.getRepresentation 0 dd).headD 'x' := by
  obtain ⟨hne, -⟩ := render_head_class v hg dd
  rcases hr : v.getRepresentation 0 dd with _ | ⟨c, t2⟩
  · exact absurd hr hne
  · rw [hr] at hd
    rw [charAt_of_drop_cons _ _ _ _ (by simpa using hd)]
    rfl

/-! ### Round-trip of single elements -/

theorem rt_null : RTPred Value.vNull := by
  intro fuel d s rest hf hd hc hrest
  obtain ⟨f, rfl⟩ : ∃ f, fuel = f + 1 := ⟨fuel - 1, by simp only [fuelNeed] at hf; omega⟩
  have hd' : s.content.drop s.currIdx = 'n' :: ("ull".data ++ rest) := hd
  have hcc : s.currChar = 'n' := by rw [hc, charAt_of_drop_cons _ _ _ _ hd']
  have hval := validateIdentifier_on "null".data s rest hd hc
  rw [Parser.parseElement, if_neg (by rw [hcc]; decide), if_neg (by rw [hcc]; decide),
    if_neg (by rw [hcc]; decide), if_neg (by rw [hcc]; decide), if_neg (by rw [hcc]; decide),
    if_pos hcc, hval]
  rfl

theorem rt_bool (b : Bool) : RTPred (Value.vBoolean b) := by
  intro fuel d s rest hf hd hc hrest
  obtain ⟨f, rfl⟩ : ∃ f, fuel = f + 1 := ⟨fuel - 1, by simp only [fuelNeed] at hf; omega⟩
  cases b with
  | true =>
      have hd' : s.content.drop s.currIdx = 't' :: ("rue".data ++ rest) := hd
      have hcc : s.currChar = 't' := by rw [hc, charAt_of_drop_cons _ _ _ _ hd']
      have hval := validateIdentifier_on "true".data s rest hd hc
      rw [Parser.parseElement, if_neg (by rw [hcc]; decide), if_neg (by rw [hcc]; decide),
        if_neg (by rw [hcc]; decide), if_pos hcc, hval]
      rfl
  | false =>
      have hd' : s.content.drop s.currIdx = 'f' :: ("alse".data ++ rest) := hd
      have hcc : s.currChar = 'f' := by rw [hc, charAt_of_drop_cons _ _ _ _ hd']
      have hval := validateIdentifier_on "false".data s rest hd hc
      rw [Parser.parseElement, if_neg (by rw [hcc]; decide), if_neg (by rw [hcc]; decide),
        if_neg (by rw [hcc]; decide), if_neg (by rw [hcc]; decide), if_pos hcc, hval]
      rfl

theorem rt_string (str : List Char) (hq : '"' ∉ str) : RTPred (Value.vString str) := by
  intro fuel d s rest hf hd hc hrest
  obtain ⟨f, rfl⟩ : ∃ f, fuel = f + 1 := ⟨fuel - 1, by simp only [fuelNeed] at hf; omega⟩
  have hd' : s.content.drop s.currIdx = '"' :: (str ++ '"' :: rest) := by
    rw [hd]
    show ('"' :: (str ++ ['"'])) ++ rest = _
    simp
  have hcc : s.currChar = '"' := by rw [hc, charAt_of_drop_cons _ _ _ _ hd']
  have hps := parseString_terminated s str rest hd' hc hq
  rw [Parser.parseElement, if_neg (by rw [hcc]; decide), if_neg (by rw [hcc]; decide),
    if_pos hcc, hps]
  have hlen : (Value.getRepresentation (Value.vString str) 0 d).length = str.length + 2 := by
    show ('"' :: (str ++ ['"'])).length = _
    simp
  rw [hlen]
  have harith : s.currIdx + str.length + 2 = s.currIdx + (str.length + 2) := by omega
  rw [harith]

theorem rt_number (q : ℚ) (hden6 : (q * 1000000).den = 1)
    (hbound : |q| < ((2 ^ 63 : ℕ) : ℚ)) (hrnd : roundToDouble q = q) :
    RTPred (Value.vNumber q) := by
  intro fuel d s rest hf hd hc hrest
  obtain ⟨f, rfl⟩ : ∃ f, fuel = f + 1 := ⟨fuel - 1, by simp only [fuelNeed] at hf; omega⟩
  obtain ⟨-, -, -, hne, hhead⟩ := render_number_scan_facts q 0 d
  have hch : charAt s.content s.currIdx =
      ((Value.vNumber q).getRepresentation 0 d).headD 'x' :=
    charAt_render_head s.content s.currIdx d (Value.vNumber q) rest hd
      (by simp only [goodValue, Bool.and_eq_true, decide_eq_true_eq]
          exact ⟨⟨hden6, hbound⟩, hrnd⟩)
  have hpn := parseNumber_on_render q hden6 hbound hrnd d s rest hd hc hrest
  rcases hhead with hh | hh
  · have hcc : s.currChar = '-' := by rw [hc, hch, hh]
    rw [Parser.parseElement, if_neg (by rw [hcc]; decide), if_neg (by rw [hcc]; decide),
      if_neg (by rw [hcc]; decide), if_neg (by rw [hcc]; decide),
      if_neg (by rw [hcc]; decide), if_neg (by rw [hcc]; decide),
      if_pos (Or.inr (Or.inl hcc)), hpn]
  · obtain ⟨h1, h2, h3, h4, h5, h6⟩ := isDigit_ne_dispatch _ hh
    have hcc : s.currChar = ((Value.vNumber q).getRepresentation 0 d).headD 'x' := by
      rw [hc, hch]
    rw [Parser.parseElement, if_neg (by rw [hcc]; exact h1), if_neg (by rw [hcc]; exact h2),
      if_neg (by rw [hcc]; exact h3), if_neg (by rw [hcc]; exact h4),
      if_neg (by rw [hcc]; exact h5), if_neg (by rw [hcc]; exact h6),
      if_pos (Or.inr (Or.inr (by rw [hcc]; exact hh))), hpn]

/-- The element loop of `parseArray` on the compact rendering of a list of
Good elements followed by the closing bracket: pushes exactly the
elements, consumes exactly the rendered items, and stops on the `]`. -/
theorem rt_arrayLoop :
    ∀ (es : List Value) (f d : Nat) (s : Parser) (acc : List Value) (rest : List Char),
      goodElems es = true →
      (∀ e ∈ es, RTPred e) →
      fuelNeedElems es ≤ f →
      s.content.drop s.currIdx = renderArrayItems es 0 d ++ ']' :: rest →
      s.currChar = charAt s.content s.currIdx →
      Parser.parseArrayLoop f s acc = (acc ++ es, { s with
        currIdx := s.currIdx + (renderArrayItems es 0 d).length,
        currChar := charAt s.content (s.currIdx + (renderArrayItems es 0 d).length) }) := by
  intro es
  induction es with
  | nil =>
      intro f d s acc rest hg hm hf hd hc
      obtain ⟨f2, rfl⟩ : ∃ f2, f = f2 + 1 :=
        ⟨f - 1, by simp only [fuelNeedElems] at hf; omega⟩
      have hd' : s.content.drop s.currIdx = ']' :: rest := by
        rw [hd]
        rfl
      have hcc : s.currChar = ']' := by rw [hc, charAt_of_drop_cons _ _ _ _ hd']
      rw [Parser.parseArrayLoop, if_pos (Or.inr hcc)]
      have hs : { s with
          currIdx := s.currIdx + (renderArrayItems [] 0 d).length,
          currChar := charAt s.content (s.currIdx + (renderArrayItems [] 0 d).length) } = s := by
        simp [renderArrayItems, ← hc]
      rw [hs]
      simp
  | cons e es2 ih =>
      intro f d s acc rest hg hm hf hd hc
      obtain ⟨f2, rfl⟩ : ∃ f2, f = f2 + 1 :=
        ⟨f - 1, by simp only [fuelNeedElems] at hf; omega⟩
      have hfef : fuelNeed e ≤ f2 := by simp only [fuelNeedElems] at hf; omega
      have hfes : fuelNeedElems es2 ≤ f2 := by simp only [fuelNeedElems] at hf; omega
      have hge := (goodElems_cons e es2 hg).1
      have hges2 := (goodElems_cons e es2 hg).2
      have hrte : RTPred e := hm e (List.mem_cons_self e es2)
      obtain ⟨hne, hw, hnrb, hnob, hnc⟩ := render_head_class e hge (d + 1)
      cases es2 with
      | nil =>
          rw [renderArrayItems_zero_single] at hd ⊢
          have hch := charAt_render_head s.content s.currIdx (d + 1) e (']' :: rest) hd hge
          have hlt : s.currIdx < s.content.length := drop_ne_nil_lt _ _ (by rw [hd]; simp)
          have hcond : ¬ (s.isEOF = true ∨ s.currChar = ']') := by
            rw [isEOF_false_of_lt s hlt, hc, hch]
            simp only [Bool.false_eq_true, false_or]
            exact hnrb
          have hsw : s.skipWhitespace = s :=
            skipWhitespace_noop s (by rw [hc, hch]; exact hw)
          have hpe := hrte f2 (d + 1) s (']' :: rest) hfef hd hc rfl
          have hdL : s.content.drop (s.currIdx + (e.getRepresentation 0 (d + 1)).length) =
              ']' :: rest := drop_shift _ _ _ _ hd
          have hchL : charAt s.content (s.currIdx + (e.getRepresentation 0 (d + 1)).length) =
              ']' := charAt_of_drop_cons _ _ _ _ hdL
          have hsw2 : Parser.skipWhitespace { s with
              currIdx := s.currIdx + (e.getRepresentation 0 (d + 1)).length,
              currChar := charAt s.content
                (s.currIdx + (e.getRepresentation 0 (d + 1)).length) } = { s with
              currIdx := s.currIdx + (e.getRepresentation 0 (d + 1)).length,
              currChar := charAt s.content
                (s.currIdx + (e.getRepresentation 0 (d + 1)).length) } :=
            skipWhitespace_noop _ (by
              show isWhitespace (charAt s.content
                (s.currIdx + (e.getRepresentation 0 (d + 1)).length)) = false
              rw [hchL]
              decide)
          rw [Parser.parseArrayLoop, if_neg hcond]
          simp only
          rw [hsw, hpe]
          simp only
          rw [hsw2]
          rw [if_pos (by
            show ¬ charAt s.content (s.currIdx + (e.getRepresentation 0 (d + 1)).length) = ','
            rw [hchL]
            decide)]
      | cons e2 rest2 =>
          rw [renderArrayItems_zero_cons2] at hd ⊢
          have hd' : s.content.drop s.currIdx = e.getRepresentation 0 (d + 1) ++
              (',' :: (renderArrayItems (e2 :: rest2) 0 d ++ ']' :: rest)) := by
            rw [hd]
            simp
          have hch := charAt_render_head s.content s.currIdx (d + 1) e
            (',' :: (renderArrayItems (e2 :: rest2) 0 d ++ ']' :: rest)) hd' hge
          have hlt : s.currIdx < s.content.length :=
            drop_ne_nil_lt _ _ (by rw [hd']; simp)
          have hcond : ¬ (s.isEOF = true ∨ s.currChar = ']') := by
            rw [isEOF_false_of_lt s hlt, hc, hch]
            simp only [Bool.false_eq_true, false_or]
            exact hnrb
          have hsw : s.skipWhitespace = s :=
            skipWhitespace_noop s (by rw [hc, hch]; exact hw)
          have hpe := hrte f2 (d + 1) s
            (',' :: (renderArrayItems (e2 :: rest2) 0 d ++ ']' :: rest)) hfef hd' hc rfl
          have hdL : s.content.drop (s.currIdx + (e.getRepresentation 0 (d + 1)).length) =
              ',' :: (renderArrayItems (e2 :: rest2) 0 d ++ ']' :: rest) :=
            drop_shift _ _ _ _ hd'
          have hchL : charAt s.content (s.currIdx + (e.getRepresentation 0 (d + 1)).length) =
              ',' := charAt_of_drop_cons _ _ _ _ hdL
          have hsw2 : Parser.skipWhitespace { s with
              currIdx := s.currIdx + (e.getRepresentation 0 (d + 1)).length,
              currChar := charAt s.content
                (s.currIdx + (e.getRepresentation 0 (d + 1)).length) } = { s with
              currIdx := s.currIdx + (e.getRepresentation 0 (d + 1)).length,
              currChar := charAt s.content
                (s.currIdx + (e.getRepresentation 0 (d + 1)).length) } :=
            skipWhitespace_noop _ (by
              show isWhitespace (charAt s.content
                (s.currIdx + (e.getRepresentation 0 (d + 1)).length)) = false
              rw [hchL]
              decide)
          have hlt1 : s.currIdx + (e.getRepresentation 0 (d + 1)).length <
              s.content.length := drop_ne_nil_lt _ _ (by rw [hdL]; simp)
          have hadv := advance_sync { s with
              currIdx := s.currIdx + (e.getRepresentation 0 (d + 1)).length,
              currChar := charAt s.content
                (s.currIdx + (e.getRepresentation 0 (d + 1)).length) } hlt1 rfl
          simp only at hadv
          have hd3 : s.content.drop (s.currIdx + (e.getRepresentation 0 (d + 1)).length + 1) =
              renderArrayItems (e2 :: rest2) 0 d ++ ']' :: rest :=
            drop_succ_of_drop_cons _ _ _ _ hdL
          have hrec := ih f2 d { s with
              currIdx := s.currIdx + (e.getRepresentation 0 (d + 1)).length + 1,
              currChar := charAt s.content
                (s.currIdx + (e.getRepresentation 0 (d + 1)).length + 1) }
            (acc ++ [e]) rest hges2
            (fun x hx => hm x (List.mem_cons_of_mem _ hx)) hfes
            (by show s.content.drop (s.currIdx + (e.getRepresentation 0 (d + 1)).length + 1) = _
                exact hd3)
            rfl
          simp only at hrec
          rw [Parser.parseArrayLoop, if_neg hcond]
          simp only
          rw [hsw, hpe]
          simp only
          rw [hsw2]
          rw [if_neg (by
            show ¬ ¬ charAt s.content
              (s.currIdx + (e.getRepresentation 0 (d + 1)).length) = ','
            rw [hchL]
            decide)]
          rw [hadv, hrec]
          have harith : s.currIdx + (e.getRepresentation 0 (d + 1)).length + 1 +
              (renderArrayItems (e2 :: rest2) 0 d).length =
              s.currIdx + (e.getRepresentation 0 (d + 1) ++
                ',' :: renderArrayItems (e2 :: rest2) 0 d).length := by
            simp
            omega
          simp [harith]

theorem renderArrayItems_zero_head (e : Value) (es2 : List Value) (d : Nat) :
    ∃ t, renderArrayItems (e :: es2) 0 d = e.getRepresentation 0 (d + 1) ++ t := by
  cases es2 with
  | nil => exact ⟨[], by rw [renderArrayItems_zero_single]; simp⟩
  | cons e2 r =>
      exact ⟨',' :: renderArrayItems (e2 :: r) 0 d, renderArrayItems_zero_cons2 e e2 r d⟩

theorem rt_array (es : List Value) (hg : goodElems es = true)
    (hm : ∀ e ∈ es, RTPred e) : RTPred (Value.vArray es) := by
  intro fuel d s rest hf hd hc hrest
  obtain ⟨F2, rfl⟩ : ∃ F2, fuel = F2 + 2 :=
    ⟨fuel - 2, by simp only [fuelNeed] at hf; omega⟩
  have hfes : fuelNeedElems es ≤ F2 := by simp only [fuelNeed] at hf; omega
  rw [render_array_zero] at hd ⊢
  have hd' : s.content.drop s.currIdx = '[' :: (renderArrayItems es 0 d ++ ']' :: rest) := by
    rw [hd]
    simp
  have hcc : s.currChar = '[' := by rw [hc, charAt_of_drop_cons _ _ _ _ hd']
  have hlt : s.currIdx < s.content.length := drop_ne_nil_lt _ _ (by rw [hd']; simp)
  have hadv := advance_sync s hlt hc
  have hd1 : s.content.drop (s.currIdx + 1) = renderArrayItems es 0 d ++ ']' :: rest :=
    drop_succ_of_drop_cons _ _ _ _ hd'
  have hnw : isWhitespace (charAt s.content (s.currIdx + 1)) = false := by
    cases es with
    | nil =>
        have hdn : s.content.drop (s.currIdx + 1) = ']' :: rest := by
          rw [hd1]
          rfl
        rw [charAt_of_drop_cons _ _ _ _ hdn]
        decide
    | cons e es2 =>
        obtain ⟨t, ht⟩ := renderArrayItems_zero_head e es2 d
        have hge := (goodElems_cons e es2 hg).1
        have hdd : s.content.drop (s.currIdx + 1) =
            e.getRepresentation 0 (d + 1) ++ (t ++ ']' :: rest) := by
          rw [hd1, ht]
          simp
        rw [charAt_render_head s.content (s.currIdx + 1) (d + 1) e _ hdd hge]
        exact (render_head_class e hge (d + 1)).2.1
  have hsw : Parser.skipWhitespace { s with
      currIdx := s.currIdx + 1,
      currChar := charAt s.content (s.currIdx + 1) } = { s with
      currIdx := s.currIdx + 1,
      currChar := charAt s.content (s.currIdx + 1) } :=
    skipWhitespace_noop _ (by
      show isWhitespace (charAt s.content (s.currIdx + 1)) = false
      exact hnw)
  have hloop := rt_arrayLoop es F2 d { s with
      currIdx := s.currIdx + 1,
      currChar := charAt s.content (s.currIdx + 1) } [] rest hg hm hfes
    (by show s.content.drop (s.currIdx + 1) = _; exact hd1) rfl
  simp only at hloop
  have hdE : s.content.drop (s.currIdx + 1 + (renderArrayItems es 0 d).length) =
      ']' :: rest := drop_shift _ _ _ _ hd1
  have hchE : charAt s.content (s.currIdx + 1 + (renderArrayItems es 0 d).length) = ']' :=
    charAt_of_drop_cons _ _ _ _ hdE
  have hltE : s.currIdx + 1 + (renderArrayItems es 0 d).length < s.content.length :=
    drop_ne_nil_lt _ _ (by rw [hdE]; simp)
  have hadv2 := advance_sync { s with
      currIdx := s.currIdx + 1 + (renderArrayItems es 0 d).length,
      currChar := charAt s.content (s.currIdx + 1 + (renderArrayItems es 0 d).length) }
    hltE rfl
  simp only at hadv2
  rw [Parser.parseElement, if_neg (by rw [hcc]; decide), if_pos hcc, Parser.parseArray]
  simp only
  rw [if_pos hcc, hadv, hsw, hloop]
  simp only
  rw [consume_matched _ _ _ (by
    show charAt s.content (s.currIdx + 1 + (renderArrayItems es 0 d).length) = ']'
    exact hchE), hadv2]
  have harith : s.currIdx + 1 + (renderArrayItems es 0 d).length + 1 =
      s.currIdx + ('[' :: (renderArrayItems es 0 d ++ [']'])).length := by
    simp
    omega
  simp [harith]

/-- The member loop of `parseObject` on the compact rendering of Good
fields with pairwise-distinct keys (all absent from the accumulator, so
every `obj[name] = element` is an append) followed by the closing brace:
stores exactly the fields in order, consumes exactly the rendered members,
and stops on the `}`. -/
theorem rt_objectLoop :
    ∀ (fs : List (List Char × Value)) (f d : Nat) (s : Parser)
      (acc : List (List Char × Value)) (rest : List Char),
      goodFields fs = true →
      (∀ kv ∈ fs, RTPred kv.2) →
      fuelNeedFields fs ≤ f →
      (fs.map Prod.fst).Nodup →
      (∀ kv ∈ fs, kv.1 ∉ acc.map Prod.fst) →
      s.content.drop s.currIdx = renderObjectItems fs 0 d ++ '\x7d' :: rest →
      s.currChar = charAt s.content s.currIdx →
      Parser.parseObjectLoop f s acc = (acc ++ fs, { s with
        currIdx := s.currIdx + (renderObjectItems fs 0 d).length,
        currChar := charAt s.content (s.currIdx + (renderObjectItems fs 0 d).length) }) := by
  intro fs
  induction fs with
  | nil =>
      intro f d s acc rest hg hm hf hnd hacc hd hc
      obtain ⟨f2, rfl⟩ : ∃ f2, f = f2 + 1 :=
        ⟨f - 1, by simp only [fuelNeedFields] at hf; omega⟩
      have hd' : s.content.drop s.currIdx = '\x7d' :: rest := by
        rw [hd]
        rfl
      have hcc : s.currChar = '\x7d' := by rw [hc, charAt_of_drop_cons _ _ _ _ hd']
      rw [Parser.parseObjectLoop, if_pos (Or.inr hcc)]
      have hs : { s with
          currIdx := s.currIdx + (renderObjectItems [] 0 d).length,
          currChar := charAt s.content
            (s.currIdx + (renderObjectItems [] 0 d).length) } = s := by
        simp [renderObjectItems, ← hc]
      rw [hs]
      simp
  | cons kv fs2 ih =>
      intro f d s acc rest hg hm hf hnd hacc hd hc
      obtain ⟨f2, rfl⟩ : ∃ f2, f = f2 + 1 :=
        ⟨f - 1, by simp only [fuelNeedFields] at hf; omega⟩
      have hfkv : fuelNeed kv.2 ≤ f2 := by simp only [fuelNeedFields] at hf; omega
      have hffs : fuelNeedFields fs2 ≤ f2 := by simp only [fuelNeedFields] at hf; omega
      obtain ⟨hgk, hgv, hgf2⟩ := goodFields_cons kv fs2 hg
      rw [List.map_cons] at hnd
      obtain ⟨hknotin, hnd2⟩ := List.nodup_cons.mp hnd
      obtain ⟨hvne, hvw, hvrb, hvob, hvc⟩ := render_head_class kv.2 hgv (d + 1)
      cases fs2 with
      | nil =>
          rw [renderObjectItems_zero_single] at hd ⊢
          have hd' : s.content.drop s.currIdx = '"' :: (kv.1 ++ '"' ::
              (':' :: (kv.2.getRepresentation 0 (d + 1) ++ '\x7d' :: rest))) := by
            rw [hd]
            simp
          have hcc : s.currChar = '"' := by rw [hc, charAt_of_drop_cons _ _ _ _ hd']
          have hlt : s.currIdx < s.content.length := drop_ne_nil_lt _ _ (by rw [hd']; simp)
          have hcond : ¬ (s.isEOF = true ∨ s.currChar = '\x7d') := by
            rw [isEOF_false_of_lt s hlt, hcc]
            simp only [Bool.false_eq_true, false_or]
            decide
          have hsw1 : s.skipWhitespace = s :=
            skipWhitespace_noop s (by rw [hcc]; decide)
          have hps := parseString_terminated s kv.1
            (':' :: (kv.2.getRepresentation 0 (d + 1) ++ '\x7d' :: rest)) hd' hc hgk
          have hd'' : s.content.drop s.currIdx = ('"' :: (kv.1 ++ ['"'])) ++
              (':' :: (kv.2.getRepresentation 0 (d + 1) ++ '\x7d' :: rest)) := by
            rw [hd']
            simp
          have hd2 := drop_shift _ _ _ _ hd''
          rw [show ('"' :: (kv.1 ++ ['"'])).length = kv.1.length + 2 by simp,
            show s.currIdx + (kv.1.length + 2) = s.currIdx + kv.1.length + 2 by omega] at hd2
          have hch2 : charAt s.content (s.currIdx + kv.1.length + 2) = ':' :=
            charAt_of_drop_cons _ _ _ _ hd2
          have hsw2 : Parser.skipWhitespace { s with
              currIdx := s.currIdx + kv.1.length + 2,
              currChar := charAt s.content (s.currIdx + kv.1.length + 2) } = { s with
              currIdx := s.currIdx + kv.1.length + 2,
              currChar := charAt s.content (s.currIdx + kv.1.length + 2) } :=
            skipWhitespace_noop _ (by
              show isWhitespace (charAt s.content (s.currIdx + kv.1.length + 2)) = false
              rw [hch2]
              decide)
          have hlt2 : s.currIdx + kv.1.length + 2 < s.content.length :=
            drop_ne_nil_lt _ _ (by rw [hd2]; simp)
          have hadv2 := advance_sync { s with
              currIdx := s.currIdx + kv.1.length + 2,
              currChar := charAt s.content (s.currIdx + kv.1.length + 2) } hlt2 rfl
          simp only at hadv2
          have hd3 : s.content.drop (s.currIdx + kv.1.length + 2 + 1) =
              kv.2.getRepresentation 0 (d + 1) ++ '\x7d' :: rest :=
            drop_succ_of_drop_cons _ _ _ _ hd2
          have hch3 := charAt_render_head s.content (s.currIdx + kv.1.length + 2 + 1)
            (d + 1) kv.2 ('\x7d' :: rest) hd3 hgv
          have hsw3 : Parser.skipWhitespace { s with
              currIdx := s.currIdx + kv.1.length + 2 + 1,
              currChar := charAt s.content (s.currIdx + kv.1.length + 2 + 1) } = { s with
              currIdx := s.currIdx + kv.1.length + 2 + 1,
              currChar := charAt s.content (s.currIdx + kv.1.length + 2 + 1) } :=
            skipWhitespace_noop _ (by
              show isWhitespace (charAt s.content (s.currIdx + kv.1.length + 2 + 1)) = false
              rw [hch3]
              exact hvw)
          have hpe := hm kv (List.mem_cons_self kv []) f2 (d + 1) { s with
              currIdx := s.currIdx + kv.1.length + 2 + 1,
              currChar := charAt s.content (s.currIdx + kv.1.length + 2 + 1) }
            ('\x7d' :: rest) hfkv
            (by show s.content.drop (s.currIdx + kv.1.length + 2 + 1) = _; exact hd3)
            rfl rfl
          simp only at hpe
          have hd4 : s.content.drop (s.currIdx + kv.1.length + 2 + 1 +
              (kv.2.getRepresentation 0 (d + 1)).length) = '\x7d' :: rest :=
            drop_shift _ _ _ _ hd3
          have hch4 : charAt s.content (s.currIdx + kv.1.length + 2 + 1 +
              (kv.2.getRepresentation 0 (d + 1)).length) = '\x7d' :=
            charAt_of_drop_cons _ _ _ _ hd4
          have hsw4 : Parser.skipWhitespace { s with
              currIdx := s.currIdx + kv.1.length + 2 + 1 +
                (kv.2.getRepresentation 0 (d + 1)).length,
              currChar := charAt s.content (s.currIdx + kv.1.length + 2 + 1 +
                (kv.2.getRepresentation 0 (d + 1)).length) } = { s with
              currIdx := s.currIdx + kv.1.length + 2 + 1 +
                (kv.2.getRepresentation 0 (d + 1)).length,
              currChar := charAt s.content (s.currIdx + kv.1.length + 2 + 1 +
                (kv.2.getRepresentation 0 (d + 1)).length) } :=
            skipWhitespace_noop _ (by
              show isWhitespace (charAt s.content (s.currIdx + kv.1.length + 2 + 1 +
                (kv.2.getRepresentation 0 (d + 1)).length)) = false
              rw [hch4]
              decide)
          have hobj : objInsert acc kv.1 kv.2 = acc ++ [kv] :=
            objInsert_of_not_mem acc kv.1 kv.2 (hacc kv (List.mem_cons_self kv []))
          rw [Parser.parseObjectLoop, if_neg hcond]
          simp only
          rw [hsw1, hps]
          simp only
          rw [hsw2, if_neg (by
            show ¬ ¬ charAt s.content (s.currIdx + kv.1.length + 2) = ':'
            rw [hch2]
            decide)]
          rw [hadv2, hsw3, hpe]
          simp only
          rw [hsw4, hobj, if_pos (by
            show ¬ charAt s.content (s.currIdx + kv.1.length + 2 + 1 +
              (kv.2.getRepresentation 0 (d + 1)).length) = ','
            rw [hch4]
            decide)]
          have harith : s.currIdx + kv.1.length + 2 + 1 +
              (kv.2.getRepresentation 0 (d + 1)).length =
              s.currIdx + ('"' :: (kv.1 ++ '"' :: ':' ::
                kv.2.getRepresentation 0 (d + 1))).length := by
            simp
            omega
          simp [harith]
      | cons kv2 rest2 =>
          rw [renderObjectItems_zero_cons2] at hd ⊢
          have hd' : s.content.drop s.currIdx = '"' :: (kv.1 ++ '"' ::
              (':' :: (kv.2.getRepresentation 0 (d + 1) ++
                ',' :: (renderObjectItems (kv2 :: rest2) 0 d ++ '\x7d' :: rest)))) := by
            rw [hd]
            simp
          have hcc : s.currChar = '"' := by rw [hc, charAt_of_drop_cons _ _ _ _ hd']
          have hlt : s.currIdx < s.content.length := drop_ne_nil_lt _ _ (by rw [hd']; simp)
          have hcond : ¬ (s.isEOF = true ∨ s.currChar = '\x7d') := by
            rw [isEOF_false_of_lt s hlt, hcc]
            simp only [Bool.false_eq_true, false_or]
            decide
          have hsw1 : s.skipWhitespace = s :=
            skipWhitespace_noop s (by rw [hcc]; decide)
          have hps := parseString_terminated s kv.1
            (':' :: (kv.2.getRepresentation 0 (d + 1) ++
              ',' :: (renderObjectItems (kv2 :: rest2) 0 d ++ '\x7d' :: rest))) hd' hc hgk
          have hd'' : s.content.drop s.currIdx = ('"' :: (kv.1 ++ ['"'])) ++
              (':' :: (kv.2.getRepresentation 0 (d + 1) ++
                ',' :: (renderObjectItems (kv2 :: rest2) 0 d ++ '\x7d' :: rest))) := by
            rw [hd']
            simp
          have hd2 := drop_shift _ _ _ _ hd''
          rw [show ('"' :: (kv.1 ++ ['"'])).length = kv.1.length + 2 by simp,
            show s.currIdx + (kv.1.length + 2) = s.currIdx + kv.1.length + 2 by omega] at hd2
          have hch2 : charAt s.content (s.currIdx + kv.1.length + 2) = ':' :=
            charAt_of_drop_cons _ _ _ _ hd2
          have hsw2 : Parser.skipWhitespace { s with
              currIdx := s.currIdx + kv.1.length + 2,
              currChar := charAt s.content (s.currIdx + kv.1.length + 2) } = { s with
              currIdx := s.currIdx + kv.1.length + 2,
              currChar := charAt s.content (s.currIdx + kv.1.length + 2) } :=
            skipWhitespace_noop _ (by
              show isWhitespace (charAt s.content (s.currIdx + kv.1.length + 2)) = false
              rw [hch2]
              decide)
          have hlt2 : s.currIdx + kv.1.length + 2 < s.content.length :=
            drop_ne_nil_lt _ _ (by rw [hd2]; simp)
          have hadv2 := advance_sync { s with
              currIdx := s.currIdx + kv.1.length + 2,
              currChar := charAt s.content (s.currIdx + kv.1.length + 2) } hlt2 rfl
          simp only at hadv2
          have hd3 : s.content.drop (s.currIdx + kv.1.length + 2 + 1) =
              kv.2.getRepresentation 0 (d + 1) ++
                ',' :: (renderObjectItems (kv2 :: rest2) 0 d ++ '\x7d' :: rest) :=
            drop_succ_of_drop_cons _ _ _ _ hd2
          have hch3 := charAt_render_head s.content (s.currIdx + kv.1.length + 2 + 1)
            (d + 1) kv.2
            (',' :: (renderObjectItems (kv2 :: rest2) 0 d ++ '\x7d' :: rest)) hd3 hgv
          have hsw3 : Parser.skipWhitespace { s with
              currIdx := s.currIdx + kv.1.length + 2 + 1,
              currChar := charAt s.content (s.currIdx + kv.1.length + 2 + 1) } = { s with
              currIdx := s.currIdx + kv.1.length + 2 + 1,
              currChar := charAt s.content (s.currIdx + kv.1.length + 2 + 1) } :=
            skipWhitespace_noop _ (by
              show isWhitespace (charAt s.content (s.currIdx + kv.1.length + 2 + 1)) = false
              rw [hch3]
              exact hvw)
          have hpe := hm kv (List.mem_cons_self kv (kv2 :: rest2)) f2 (d + 1) { s with
              currIdx := s.currIdx + kv.1.length + 2 + 1,
              currChar := charAt s.content (s.currIdx + kv.1.length + 2 + 1) }
            (',' :: (renderObjectItems (kv2 :: rest2) 0 d ++ '\x7d' :: rest)) hfkv
            (by show s.content.drop (s.currIdx + kv.1.length + 2 + 1) = _; exact hd3)
            rfl rfl
          simp only at hpe
          have hd4 : s.content.drop (s.currIdx + kv.1.length + 2 + 1 +
              (kv.2.getRepresentation 0 (d + 1)).length) =
              ',' :: (renderObjectItems (kv2 :: rest2) 0 d ++ '\x7d' :: rest) :=
            drop_shift _ _ _ _ hd3
          have hch4 : charAt s.content (s.currIdx + kv.1.length + 2 + 1 +
              (kv.2.getRepresentation 0 (d + 1)).length) = ',' :=
            charAt_of_drop_cons _ _ _ _ hd4
          have hsw4 : Parser.skipWhitespace { s with
              currIdx := s.currIdx + kv.1.length + 2 + 1 +
                (kv.2.getRepresentation 0 (d + 1)).length,
              currChar := charAt s.content (s.currIdx + kv.1.length + 2 + 1 +
                (kv.2.getRepresentation 0 (d + 1)).length) } = { s with
              currIdx := s.currIdx + kv.1.length + 2 + 1 +
                (kv.2.getRepresentation 0 (d + 1)).length,
              currChar := charAt s.content (s.currIdx + kv.1.length + 2 + 1 +
                (kv.2.getRepresentation 0 (d + 1)).length) } :=
            skipWhitespace_noop _ (by
              show isWhitespace (charAt s.content (s.currIdx + kv.1.length + 2 + 1 +
                (kv.2.getRepresentation 0 (d + 1)).length)) = false
              rw [hch4]
              decide)
          have hobj : objInsert acc kv.1 kv.2 = acc ++ [kv] :=
            objInsert_of_not_mem acc kv.1 kv.2 (hacc kv (List.mem_cons_self kv (kv2 :: rest2)))
          have hlt4 : s.currIdx + kv.1.length + 2 + 1 +
              (kv.2.getRepresentation 0 (d + 1)).length < s.content.length :=
            drop_ne_nil_lt _ _ (by rw [hd4]; simp)
          have hadv4 := advance_sync { s with
              currIdx := s.currIdx + kv.1.length + 2 + 1 +
                (kv.2.getRepresentation 0 (d + 1)).length,
              currChar := charAt s.content (s.currIdx + kv.1.length + 2 + 1 +
                (kv.2.getRepresentation 0 (d + 1)).length) } hlt4 rfl
          simp only at hadv4
          have hd5 : s.content.drop (s.currIdx + kv.1.length + 2 + 1 +
              (kv.2.getRepresentation 0 (d + 1)).length + 1) =
              renderObjectItems (kv2 :: rest2) 0 d ++ '\x7d' :: rest :=
            drop_succ_of_drop_cons _ _ _ _ hd4
          have hrec := ih f2 d { s with
              currIdx := s.currIdx + kv.1.length + 2 + 1 +
                (kv.2.getRepresentation 0 (d + 1)).length + 1,
              currChar := charAt s.content (s.currIdx + kv.1.length + 2 + 1 +
                (kv.2.getRepresentation 0 (d + 1)).length + 1) }
            (acc ++ [kv]) rest hgf2
            (fun x hx => hm x (List.mem_cons_of_mem _ hx)) hffs hnd2
            (by
              intro kv2' hkv2
              rw [List.map_append]
              intro hmem
              rcases List.mem_append.mp hmem with hmem | hmem
              · exact hacc kv2' (List.mem_cons_of_mem _ hkv2) hmem
              · apply hknotin
                have : kv2'.1 = kv.1 := by simpa using hmem
                rw [← this]
                exact List.mem_map_of_mem Prod.fst hkv2)
            (by
              show s.content.drop (s.currIdx + kv.1.length + 2 + 1 +
                (kv.2.getRepresentation 0 (d + 1)).length + 1) = _
              exact hd5)
            rfl
          simp only at hrec
          rw [Parser.parseObjectLoop, if_neg hcond]
          simp only
          rw [hsw1, hps]
          simp only
          rw [hsw2, if_neg (by
            show ¬ ¬ charAt s.content (s.currIdx + kv.1.length + 2) = ':'
            rw [hch2]
            decide)]
          rw [hadv2, hsw3, hpe]
          simp only
          rw [hsw4, hobj, if_neg (by
            show ¬ ¬ charAt s.content (s.currIdx + kv.1.length + 2 + 1 +
              (kv.2.getRepresentation 0 (d + 1)).length) = ','
            rw [hch4]
            decide)]
          rw [hadv4, hrec]
          have harith : s.currIdx + kv.1.length + 2 + 1 +
              (kv.2.getRepresentation 0 (d + 1)).length + 1 +
              (renderObjectItems (kv2 :: rest2) 0 d).length =
              s.currIdx + ('"' :: (kv.1 ++ '"' :: ':' ::
                (kv.2.getRepresentation 0 (d + 1) ++
                  ',' :: renderObjectItems (kv2 :: rest2) 0 d))).length := by
            simp
            omega
          simp [harith]

theorem renderObjectItems_zero_head (kv : List Char × Value)
    (fs2 : List (List Char × Value)) (d : Nat) :
    ∃ t, renderObjectItems (kv :: fs2) 0 d = '"' :: t := by
  cases fs2 with
  | nil => exact ⟨_, renderObjectItems_zero_single kv d⟩
  | cons kv2 r => exact ⟨_, renderObjectItems_zero_cons2 kv kv2 r d⟩

theorem rt_object (fs : List (List Char × Value)) (hg : goodFields fs = true)
    (hnd : (fs.map Prod.fst).Nodup)
    (hm : ∀ kv ∈ fs, RTPred kv.2) : RTPred (Value.vObject fs) := by
  intro fuel d s rest hf hd hc hrest
  obtain ⟨F2, rfl⟩ : ∃ F2, fuel = F2 + 2 :=
    ⟨fuel - 2, by simp only [fuelNeed] at hf; omega⟩
  have hffs : fuelNeedFields fs ≤ F2 := by simp only [fuelNeed] at hf; omega
  rw [render_object_zero] at hd ⊢
  have hd' : s.content.drop s.currIdx =
      '\x7b' :: (renderObjectItems fs 0 d ++ '\x7d' :: rest) := by
    rw [hd]
    simp
  have hcc : s.currChar = '\x7b' := by rw [hc, charAt_of_drop_cons _ _ _ _ hd']
  have hlt : s.currIdx < s.content.length := drop_ne_nil_lt _ _ (by rw [hd']; simp)
  have hadv := advance_sync s hlt hc
  have hd1 : s.content.drop (s.currIdx + 1) = renderObjectItems fs 0 d ++ '\x7d' :: rest :=
    drop_succ_of_drop_cons _ _ _ _ hd'
  have hnw : isWhitespace (charAt s.content (s.currIdx + 1)) = false := by
    cases fs with
    | nil =>
        have hdn : s.content.drop (s.currIdx + 1) = '\x7d' :: rest := by
          rw [hd1]
          rfl
        rw [charAt_of_drop_cons _ _ _ _ hdn]
        decide
    | cons kv fs2 =>
        obtain ⟨t, ht⟩ := renderObjectItems_zero_head kv fs2 d
        have hdq : s.content.drop (s.currIdx + 1) = '"' :: (t ++ '\x7d' :: rest) := by
          rw [hd1, ht]
          simp
        rw [charAt_of_drop_cons _ _ _ _ hdq]
        decide
  have hsw : Parser.skipWhitespace { s with
      currIdx := s.currIdx + 1,
      currChar := charAt s.content (s.currIdx + 1) } = { s with
      currIdx := s.currIdx + 1,
      currChar := charAt s.content (s.currIdx + 1) } :=
    skipWhitespace_noop _ (by
      show isWhitespace (charAt s.content (s.currIdx + 1)) = false
      exact hnw)
  have hloop := rt_objectLoop fs F2 d { s with
      currIdx := s.currIdx + 1,
      currChar := charAt s.content (s.currIdx + 1) } [] rest hg hm hffs hnd
    (by intro kv hkv; simp)
    (by show s.content.drop (s.currIdx + 1) = _; exact hd1) rfl
  simp only at hloop
  have hdE : s.content.drop (s.currIdx + 1 + (renderObjectItems fs 0 d).length) =
      '\x7d' :: rest := drop_shift _ _ _ _ hd1
  have hchE : charAt s.content (s.currIdx + 1 + (renderObjectItems fs 0 d).length) =
      '\x7d' := charAt_of_drop_cons _ _ _ _ hdE
  have hltE : s.currIdx + 1 + (renderObjectItems fs 0 d).length < s.content.length :=
    drop_ne_nil_lt _ _ (by rw [hdE]; simp)
  have hadv2 := advance_sync { s with
      currIdx := s.currIdx + 1 + (renderObjectItems fs 0 d).length,
      currChar := charAt s.content (s.currIdx + 1 + (renderObjectItems fs 0 d).length) }
    hltE rfl
  simp only at hadv2
  rw [Parser.parseElement, if_pos hcc, Parser.parseObject]
  simp only
  rw [if_pos hcc, hadv, hsw, hloop]
  simp only
  rw [consume_matched _ _ _ (by
    show charAt s.content (s.currIdx + 1 + (renderObjectItems fs 0 d).length) = '\x7d'
    exact hchE), hadv2]
  have harith : s.currIdx + 1 + (renderObjectItems fs 0 d).length + 1 =
      s.currIdx + ('\x7b' :: (renderObjectItems fs 0 d ++ ['\x7d'])).length := by
    simp
    omega
  simp [harith]

/-- Every Good value round-trips: structural recursion bootstrapped through
a bound on `sizeOf`. -/
theorem rt_main : ∀ (n : Nat) (v : Value), sizeOf v ≤ n → goodValue v = true → RTPred v := by
  intro n
  induction n with
  | zero =>
      intro v hs hg
      exfalso
      cases v <;> simp at hs
  | succ n ih =>
      intro v hs hg
      cases v with
      | vNull => exact rt_null
      | vBoolean b => exact rt_bool b
      | vString str =>
          apply rt_string
          simp only [goodValue, Bool.and_eq_true, decide_eq_true_eq] at hg
          exact hg.1.1
      | vNumber q =>
          simp only [goodValue, Bool.and_eq_true, decide_eq_true_eq] at hg
          exact rt_number q hg.1.1 hg.1.2 hg.2
      | vUnknown => exact absurd hg (by decide)
      | vArray es =>
          have hge : goodElems es = true := hg
          apply rt_array es hge
          intro e he
          apply ih e ?_ (goodElems_mem es hge e he)
          have h1 : sizeOf e < sizeOf es := List.sizeOf_lt_of_mem he
          have h2 : sizeOf (Value.vArray es) = 1 + sizeOf es := by simp
          omega
      | vObject fs =>
          simp only [goodValue, Bool.and_eq_true, decide_eq_true_eq] at hg
          apply rt_object fs hg.1 hg.2
          intro kv hkv
          apply ih kv.2 ?_ (goodFields_mem fs hg.1 kv hkv)
          have h1 : sizeOf kv < sizeOf fs := List.sizeOf_lt_of_mem hkv
          have h2 : sizeOf (Value.vObject fs) = 1 + sizeOf fs := by simp
          have h3 : sizeOf kv.2 < sizeOf kv := by
            obtain ⟨k, v2⟩ := kv
            simp
          omega

/-- C1: the amended round-trip. For every Value tree that is Good —
no Unknown nodes, String payloads and Object keys free of `'"'` and `'\'`
and ASCII, Object keys pairwise distinct, and every Number payload a
multiple of 10^-6 of magnitude below 2^63 that is exactly representable
as an IEEE-754 `double` (`roundToDouble q = q`; `std::stod` returns a
`double`, so payloads like 2^62 + 1/2 reparse as 2^62 and cannot
round-trip) — parsing the compact rendering (indent 0) with enough fuel
returns a structurally equal tree and `isOK()` is true. The general claim
over all Number payloads is refuted by the separate counterexample
theorem: 10^-7 renders as `0.000000`. -/
theorem C1_roundtrip_amended (v : Value) (hg : goodValue v = true) (fuel : Nat)
    (hf : fuelNeed v ≤ fuel) :
    (Parser.parse fuel (Parser.init (v.getRepresentation 0 0))).1 = v ∧
    (Parser.parse fuel (Parser.init (v.getRepresentation 0 0))).2.isOK = true := by
  have hrt := rt_main (sizeOf v) v le_rfl hg
  obtain ⟨hne, -⟩ := render_head_class v hg 0
  have hinit : { Parser.init (v.getRepresentation 0 0) with isOk := true } =
      Parser.init (v.getRepresentation 0 0) := rfl
  have hstep := hrt fuel 0 (Parser.init (v.getRepresentation 0 0)) [] hf
    (by
      show (v.getRepresentation 0 0).drop 0 = v.getRepresentation 0 0 ++ []
      simp)
    (init_sync _ hne) rfl
  rw [Parser.parse, hinit, hstep]
  exact ⟨rfl, rfl⟩

theorem C1_roundtrip_amended_witness :
    goodValue (Value.vObject [("a".data, Value.vArray
      [Value.vNumber (7 / 2), Value.vBoolean true, Value.vNull])]) = true ∧
    fuelNeed (Value.vObject [("a".data, Value.vArray
      [Value.vNumber (7 / 2), Value.vBoolean true, Value.vNull])]) ≤ 9 ∧
    ((Parser.parse 9 (Parser.init ((Value.vObject [("a".data, Value.vArray
        [Value.vNumber (7 / 2), Value.vBoolean true, Value.vNull])]).getRepresentation
          0 0))).1 =
      Value.vObject [("a".data, Value.vArray
        [Value.vNumber (7 / 2), Value.vBoolean true, Value.vNull])] ∧
    (Parser.parse 9 (Parser.init ((Value.vObject [("a".data, Value.vArray
      [Value.vNumber (7 / 2), Value.vBoolean true, Value.vNull])]).getRepresentation
        0 0))).2.isOK = true) :=
  ⟨by decide, by decide,
    C1_roundtrip_amended (Value.vObject [("a".data, Value.vArray
      [Value.vNumber (7 / 2), Value.vBoolean true, Value.vNull])]) (by decide) 9 (by decide)⟩

end JSON
